import Mathlib

/-!
Verification development for the cross-language source-code indexer
(`ast-index`). The Rust sources under `src/` are shallowly embedded:
strings are lists of `Char`, UTF-8 byte positions are tracked with
`Char.utf8Size`, each regular expression from the source is hand-compiled
to a deterministic matching function with the same match semantics
(anchored `^[\s]*` prefixes, greedy repetition, ordered alternation and
the backtracking the concrete pattern can actually exercise), and the
per-line driver loops are structurally recursive functions.

Character classes follow the ASCII ranges recognised by the patterns
(`[A-Za-z0-9_]`, `[A-Z]`, `[a-z]`); whitespace is modelled as the ASCII
whitespace characters.
-/

/-! ## Basic character classes and list helpers -/

/-- ASCII whitespace, modelling both `char::is_whitespace` and regex `\s`
on the inputs considered here. -/
def isSpaceRx (c : Char) : Bool :=
  c = ' ' || c = '\t' || c = '\n' || c = '\x0b' || c = '\x0c' || c = '\r'

/-- Regex `\w` (ASCII): letters, digits and underscore. -/
def isWordCh (c : Char) : Bool :=
  c.isAlpha || c.isDigit || c = '_'

/-- Regex `[a-zA-Z0-9]`: letters and digits, no underscore. -/
def isAlnumCh (c : Char) : Bool :=
  c.isAlpha || c.isDigit

/-- Rust `str::trim`: drop whitespace from both ends. -/
def trimChars (l : List Char) : List Char :=
  ((l.dropWhile isSpaceRx).reverse.dropWhile isSpaceRx).reverse

/-- UTF-8 byte length of a character sequence, Rust `str::len`. -/
def utf8Len (l : List Char) : Nat :=
  (l.map Char.utf8Size).sum

/-- Match a literal character sequence at the start of `s`, returning the
remainder on success. -/
def stripLit : List Char → List Char → Option (List Char)
  | [], s => some s
  | _ :: _, [] => none
  | p :: ps, c :: cs => if c = p then stripLit ps cs else none

/-- `startsWithLit p s` iff `p` is a literal prefix of `s`. -/
def startsWithLit (p s : List Char) : Bool :=
  (stripLit p s).isSome

/-- Substring containment, Rust `str::contains` with a literal needle. -/
def containsSub (needle : List Char) : List Char → Bool
  | [] => startsWithLit needle []
  | c :: cs => startsWithLit needle (c :: cs) || containsSub needle cs

/-- Rust `str::split` with a character predicate: the segments between
separator characters, keeping empty segments. -/
def splitOnPred (p : Char → Bool) : List Char → List (List Char)
  | [] => [[]]
  | c :: cs =>
    if p c then [] :: splitOnPred p cs
    else match splitOnPred p cs with
      | [] => [[c]]
      | l :: ls => (c :: l) :: ls

/-- Split on `'\n'` (first half of Rust `str::lines`). -/
def splitNl : List Char → List (List Char) :=
  splitOnPred (· = '\n')

/-- Strip one trailing carriage return, as `str::lines` does per line. -/
def stripCr (l : List Char) : List Char :=
  match l.reverse with
  | '\r' :: rest => rest.reverse
  | _ => l

/-- Rust `content.lines()` as a list of lines. -/
def rustLines (s : List Char) : List (List Char) :=
  (if (splitNl s).getLast? = some [] then (splitNl s).dropLast
   else splitNl s).map stripCr

/-- Pair each element with its index, starting at `n`. -/
def enumFrom (n : Nat) : List α → List (Nat × α)
  | [] => []
  | a :: as => (n, a) :: enumFrom (n + 1) as

/-- Concatenation of `f` over a list (Rust-style accumulating loops that
only ever push). -/
def flatMapL (f : α → List β) : List α → List β
  | [] => []
  | a :: as => f a ++ flatMapL f as

/-! ## Data model (`src/parsers/mod.rs`, kinds from the store schema)

`SymbolKind` is the closed kind enumeration of the data model; the
parsers construct its variants directly (`SymbolKind::Class`, ...). Its
defining module (`db.rs`) is not part of the analysed sources; the
variant set is taken from the specification's closed enumeration, which
the parser sources confirm variant by variant. -/

inductive SymbolKind where
  | Class | Interface | Object | Enum | Protocol | Struct
  | Function | Property | TypeAlias | Package | Constant
deriving DecidableEq, Repr, BEq

/-- A parsed symbol from source code (`ParsedSymbol` in `mod.rs`);
`parents` is a list of `(parent_name, inherit_kind)` pairs. -/
structure ParsedSymbol where
  name : String
  kind : SymbolKind
  line : Nat
  signature : String
  parents : List (String × String)
deriving DecidableEq, Repr

/-- A reference/usage of a symbol (`ParsedRef` in `mod.rs`). -/
structure ParsedRef where
  name : String
  line : Nat
  context : String
deriving DecidableEq, Repr

/-! ## Context truncation (`mod.rs`, `truncate_context`) -/

/-- Max length for context strings stored in DB (`MAX_CONTEXT_LEN`). -/
def MAX_CONTEXT_LEN : Nat := 500

/-- The byte-prefix `s[..end]` where `end` is the smallest UTF-8 character
boundary `≥ n` — the `while !s.is_char_boundary(end)` loop of
`truncate_context`. Each step consumes one character and `utf8Size` of
the byte budget. -/
def takeBytes : List Char → Nat → List Char
  | [], _ => []
  | c :: cs, n => if n = 0 then [] else c :: takeBytes cs (n - c.utf8Size)

/-- `truncate_context` from `mod.rs`: byte length ≤ 500 keeps the string;
otherwise the prefix up to the first character boundary at or after byte
500, with `"..."` appended. -/
def truncate_context (s : List Char) : List Char :=
  if utf8Len s ≤ MAX_CONTEXT_LEN then s
  else takeBytes s MAX_CONTEXT_LEN ++ ['.', '.', '.']

/-! ## Reference extraction (`mod.rs`, `extract_references`) -/

/-- The fixed keyword / common-type denylist (`KEYWORDS` in `mod.rs`). -/
def refKeywords : List String :=
  [ "if", "else", "when", "while", "for", "do", "try", "catch", "finally",
    "return", "break", "continue", "throw", "is", "in", "as", "true", "false",
    "null", "this", "super", "class", "interface", "object", "fun", "val", "var",
    "import", "package", "private", "public", "protected", "internal", "override",
    "abstract", "final", "open", "sealed", "data", "inner", "enum", "companion",
    "lateinit", "const", "suspend", "inline", "crossinline", "noinline", "reified",
    "annotation", "typealias", "get", "set", "init", "constructor", "by", "where",
    "String", "Int", "Long", "Double", "Float", "Boolean", "Byte", "Short", "Char",
    "Unit", "Any", "Nothing", "List", "Map", "Set", "Array", "Pair", "Triple",
    "MutableList", "MutableMap", "MutableSet", "HashMap", "ArrayList", "HashSet",
    "Exception", "Error", "Throwable", "Result", "Sequence" ]

/-- Scanner for `IDENTIFIER_RE = \b([A-Z][a-zA-Z0-9]*)\b`: at each word
boundary starting with an uppercase letter, the greedy capture is the
maximal alphanumeric run; the trailing `\b` rejects a run followed by
`'_'`. `prevWord` records whether the previous character was a word
character (no boundary). Candidate positions cannot overlap, so the scan
advances one character at a time. -/
def scanUppersAux : Bool → List Char → List (List Char)
  | _, [] => []
  | prevWord, c :: cs =>
    let rest := scanUppersAux (isWordCh c) cs
    if prevWord then rest
    else if c.isUpper then
      let run := c :: cs.takeWhile isAlnumCh
      let after := cs.dropWhile isAlnumCh
      match after.head? with
      | some d => if isWordCh d then rest else run :: rest
      | none => run :: rest
    else rest

/-- All captures of `IDENTIFIER_RE` on one line, in order. -/
def scanUppers (l : List Char) : List (List Char) :=
  scanUppersAux false l

/-- Scanner for `FUNC_CALL_RE = \b([a-z][a-zA-Z0-9]*)\s*\(`: lowercase
word-boundary start, maximal alphanumeric capture, then optional
whitespace and a literal `'('`. -/
def scanCallsAux : Bool → List Char → List (List Char)
  | _, [] => []
  | prevWord, c :: cs =>
    let rest := scanCallsAux (isWordCh c) cs
    if prevWord then rest
    else if c.isLower then
      let run := c :: cs.takeWhile isAlnumCh
      let after := cs.dropWhile isAlnumCh
      if (after.dropWhile isSpaceRx).head? = some '(' then run :: rest
      else rest
    else rest

/-- All captures of `FUNC_CALL_RE` on one line, in order. -/
def scanCalls (l : List Char) : List (List Char) :=
  scanCallsAux false l

/-- The per-line body of `extract_references`: skip overlong, import /
package and comment lines (all tested on the trimmed line, the length in
bytes), then emit CamelCase type references followed by function-call
references, each filtered against the keyword set and the locally
defined names, calls additionally requiring length > 2. -/
def refLineBody (defined : List String) (lineNum : Nat) (line : List Char) :
    List ParsedRef :=
  if utf8Len (trimChars line) > 2000 then []
  else if startsWithLit "import ".data (trimChars line) ||
          startsWithLit "package ".data (trimChars line) then []
  else if startsWithLit "//".data (trimChars line) ||
          startsWithLit "/*".data (trimChars line) ||
          startsWithLit "*".data (trimChars line) then []
  else
    (scanUppers line).filterMap (fun n =>
      if !refKeywords.contains (String.mk n) && !defined.contains (String.mk n) then
        some ⟨String.mk n, lineNum, String.mk (truncate_context (trimChars line))⟩
      else none) ++
    (scanCalls line).filterMap (fun n =>
      if !refKeywords.contains (String.mk n) && !defined.contains (String.mk n) then
        if (String.mk n).length > 2 then
          some ⟨String.mk n, lineNum, String.mk (truncate_context (trimChars line))⟩
        else none
      else none)

/-- `extract_references` from `mod.rs`. -/
def extract_references (content : String) (definedSymbols : List ParsedSymbol) :
    List ParsedRef :=
  let defined := definedSymbols.map (·.name)
  flatMapL (fun p => refLineBody defined (p.1 + 1) p.2)
    (enumFrom 0 (rustLines content.data))

/-! ## Kotlin/Java parser (`src/parsers/kotlin.rs`)

Each regex of `kotlin.rs` is compiled to a matcher on the line's
characters. All patterns are anchored `^[\s]*`, so matching starts after
the leading whitespace. Modifier repetitions `((?:m1|...|mk)[\s]+)*` are
deterministic: the modifier words are pairwise non-prefixing and none of
them is `class`/`object`/`interface`/`fun`/`val`/`var`/`enum class`, so
the greedy left-to-right consumption agrees with backtracking
semantics. -/

/-- One iteration of a modifier group `(?:m1|...|mk)[\s]+`: the first
alternative that matches and is followed by at least one whitespace
character; consumes the modifier and the whitespace run. -/
def tryMods (mods : List (List Char)) (s : List Char) : Option (List Char) :=
  match mods with
  | [] => none
  | m :: ms =>
    match stripLit m s with
    | some r =>
      match r with
      | c :: cs => if isSpaceRx c then some (cs.dropWhile isSpaceRx) else tryMods ms s
      | [] => tryMods ms s
    | none => tryMods ms s

/-- The starred modifier group, with fuel (each iteration consumes at
least one character, so `s.length` steps suffice). -/
def modsLoopF (mods : List (List Char)) : Nat → List Char → List Char
  | 0, s => s
  | fuel + 1, s =>
    match tryMods mods s with
    | some s' => modsLoopF mods fuel s'
    | none => s

/-- `((?:m1|...|mk)[\s]+)*` applied at the start of `s`. -/
def modsLoop (mods : List (List Char)) (s : List Char) : List Char :=
  modsLoopF mods s.length s

/-- `[\s]+` / `\s+`: at least one whitespace character, consumed greedily. -/
def wsThen1 (s : List Char) : Option (List Char) :=
  match s with
  | c :: cs => if isSpaceRx c then some (cs.dropWhile isSpaceRx) else none
  | [] => none

/-- `(\w+)`: the greedy nonempty word capture and the remainder. -/
def word1 (s : List Char) : Option (List Char × List Char) :=
  match s.takeWhile isWordCh with
  | [] => none
  | c :: cs => some (c :: cs, s.dropWhile isWordCh)

/-- Optional generic group `(?:\s*<[^>]*>)?`: consumed when present,
otherwise the input is returned unchanged. -/
def optGeneric (s : List Char) : List Char :=
  match (s.dropWhile isSpaceRx) with
  | '<' :: r =>
    (match r.dropWhile (· ≠ '>') with
     | '>' :: r2 => r2
     | _ => s)
  | _ => s

/-- Optional inheritance group `\s*:\s*(C+)` where `C` is the complement
of `stop`. When everything after the colon up to the first stop
character is whitespace, the regex backtracks the inner `\s*` by one
character, capturing the final whitespace character. -/
def tryColonCapture (stop : Char → Bool) (s : List Char) : Option (List Char) :=
  match s.dropWhile isSpaceRx with
  | ':' :: r =>
    let ws2 := r.takeWhile isSpaceRx
    let body := r.dropWhile isSpaceRx
    let cap := body.takeWhile (fun c => !stop c)
    if cap ≠ [] then some cap
    else
      match ws2.reverse with
      | w :: _ => some [w]
      | [] => none
  | _ => none

/-- Modifier alternatives of `CLASS_START_RE`. -/
def kotlinClassMods : List (List Char) :=
  ["public".data, "private".data, "protected".data, "internal".data,
   "abstract".data, "open".data, "final".data, "sealed".data, "data".data,
   "value".data, "inline".data, "annotation".data, "inner".data, "enum".data]

/-- `CLASS_START_RE`: `^[\s]*(mods[\s]+)*(?:class|object)\s+(\w+)`,
returning the captured name. -/
def class_start_match (line : List Char) : Option (List Char) :=
  match stripLit "class".data
      (modsLoop kotlinClassMods (line.dropWhile isSpaceRx)) with
  | some r =>
    (match wsThen1 r with
     | some r' => (word1 r').map (·.1)
     | none => none)
  | none =>
    match stripLit "object".data
        (modsLoop kotlinClassMods (line.dropWhile isSpaceRx)) with
    | some r =>
      (match wsThen1 r with
       | some r' => (word1 r').map (·.1)
       | none => none)
    | none => none

/-- Modifier alternatives of `INTERFACE_RE`. -/
def kotlinInterfaceMods : List (List Char) :=
  ["public".data, "private".data, "protected".data, "internal".data,
   "sealed".data, "fun".data]

/-- `INTERFACE_RE`: `^[\s]*(mods[\s]+)*interface\s+(\w+)(?:\s*<[^>]*>)?`
`(?:\s*:\s*([^{]+))?`, returning the name and the optional parents
capture. -/
def interface_match (line : List Char) :
    Option (List Char × Option (List Char)) :=
  let s := modsLoop kotlinInterfaceMods (line.dropWhile isSpaceRx)
  match stripLit "interface".data s with
  | some r =>
    match wsThen1 r with
    | some r' =>
      match word1 r' with
      | some (n, r2) =>
        let r3 := optGeneric r2
        some (n, tryColonCapture (fun c => c = '\x7b') r3)
      | none => none
    | none => none
  | none => none

/-- `ENUM_RE`: `^[\s]*((?:public|private|protected|internal)[\s]+)*`
`enum\s+class\s+(\w+)`. -/
def enum_match (line : List Char) : Option (List Char) :=
  match stripLit "enum".data
      (modsLoop ["public".data, "private".data, "protected".data,
        "internal".data] (line.dropWhile isSpaceRx)) with
  | some r =>
    match wsThen1 r with
    | some r' =>
      match stripLit "class".data r' with
      | some r2 =>
        match wsThen1 r2 with
        | some r3 => (word1 r3).map (·.1)
        | none => none
      | none => none
    | none => none
  | none => none

/-- Modifier alternatives of `FUN_RE`. -/
def kotlinFunMods : List (List Char) :=
  ["public".data, "private".data, "protected".data, "internal".data,
   "override".data, "suspend".data, "inline".data, "operator".data,
   "infix".data, "tailrec".data, "external".data, "actual".data,
   "expect".data]

/-- `(\w+)\s*\(([^)]*)\)` tail of `FUN_RE`: a name followed by an
argument list closed on the same line. -/
def funNameParen (s : List Char) : Option (List Char) :=
  match word1 s with
  | some (n, r) =>
    (match (r.dropWhile isSpaceRx) with
     | '(' :: t =>
       (match t.dropWhile (· ≠ ')') with
        | ')' :: _ => some n
        | _ => none)
     | _ => none)
  | none => none

/-- `FUN_RE`: `^[\s]*(mods[\s]+)*fun\s+(?:<[^>]*>\s*)?(?:(\w+)\.)?(\w+)`
`\s*\(([^)]*)\)(?:\s*:\s*(\S+))?`, returning the function name (capture
3). The trailing return-type group is optional and cannot fail, so it is
not modelled. -/
def fun_match (line : List Char) : Option (List Char) :=
  let s := modsLoop kotlinFunMods (line.dropWhile isSpaceRx)
  match stripLit "fun".data s with
  | some r =>
    match wsThen1 r with
    | some r' =>
      -- optional `(?:<[^>]*>\s*)?` immediately after the whitespace
      let r1 :=
        match r' with
        | '<' :: t =>
          (match t.dropWhile (· ≠ '>') with
           | '>' :: t2 => t2.dropWhile isSpaceRx
           | _ => r')
        | _ => r'
      -- optional receiver `(?:(\w+)\.)?`, preferred when it matches
      let withReceiver :=
        match word1 r1 with
        | some (_, r2) =>
          (match r2 with
           | '.' :: r3 => funNameParen r3
           | _ => none)
        | none => none
      match withReceiver with
      | some n => some n
      | none => funNameParen r1
    | none => none
  | none => none

/-- Modifier alternatives of `PROPERTY_RE`. -/
def kotlinPropertyMods : List (List Char) :=
  ["public".data, "private".data, "protected".data, "internal".data,
   "override".data, "const".data, "lateinit".data, "lazy".data]

/-- `PROPERTY_RE`: `^[\s]*(mods[\s]+)*(?:val|var)\s+(\w+)(?:\s*:\s*(\S+))?`,
returning the property name. -/
def property_match (line : List Char) : Option (List Char) :=
  let s := modsLoop kotlinPropertyMods (line.dropWhile isSpaceRx)
  let tail :=
    match stripLit "val".data s with
    | some r => some r
    | none => stripLit "var".data s
  match tail with
  | some r =>
    match wsThen1 r with
    | some r' => (word1 r').map (·.1)
    | none => none
  | none => none

/-- `TYPEALIAS_RE`: `^[\s]*typealias\s+(\w+)(?:\s*<[^>]*>)?\s*=\s*(.+)`. -/
def typealias_match (line : List Char) : Option (List Char) :=
  match stripLit "typealias".data (line.dropWhile isSpaceRx) with
  | some r =>
    match wsThen1 r with
    | some r' =>
      match word1 r' with
      | some (n, r2) =>
        (match (optGeneric r2).dropWhile isSpaceRx with
         | '=' :: t => if t ≠ [] then some n else none
         | _ => none)
      | none => none
    | none => none
  | none => none

/-- The `\s+([A-Z][A-Z0-9_]*)\s*=` tail of `JAVA_FIELD_RE`. -/
def javaFieldName (r : List Char) : Option (List Char) :=
  match wsThen1 r with
  | some r' =>
    (match r' with
     | c :: t =>
       if c.isUpper then
         let run := t.takeWhile (fun d => d.isUpper || d.isDigit || d = '_')
         let after := t.dropWhile (fun d => d.isUpper || d.isDigit || d = '_')
         match after.dropWhile isSpaceRx with
         | '=' :: _ => some (c :: run)
         | _ => none
       else none
     | [] => none)
  | none => none

/-- Type-and-name tail `(\w+(?:<[^>]+>)?)\s+([A-Z][A-Z0-9_]*)\s*=` of
`JAVA_FIELD_RE`; the generic argument group prefers to match and
backtracks to absent. -/
def javaFieldTail (s : List Char) : Option (List Char) :=
  match word1 s with
  | some (_, r1) =>
    let withGeneric :=
      match r1 with
      | '<' :: t =>
        (match t.takeWhile (· ≠ '>') with
         | [] => none
         | _ :: _ =>
           match t.dropWhile (· ≠ '>') with
           | '>' :: t2 => javaFieldName t2
           | _ => none)
      | _ => none
    match withGeneric with
    | some n => some n
    | none => javaFieldName r1
  | none => none

/-- An optional modifier group `((?:p1|...)\s+)?` in `JAVA_FIELD_RE`:
prefer consuming it, fall back to absent if the continuation fails. -/
def tryOptModGroup (pats : List (List Char)) (s : List Char)
    (k : List Char → Option (List Char)) : Option (List Char) :=
  match tryMods pats s with
  | some s' =>
    (match k s' with
     | some r => some r
     | none => k s)
  | none => k s

/-- `JAVA_FIELD_RE`: `^[\s]*((?:public|private|protected)[\s]+)?`
`(?:static[\s]+)?(?:final[\s]+)?(\w+(?:<[^>]+>)?)\s+([A-Z][A-Z0-9_]*)\s*=`,
returning the field name (capture 3). -/
def java_field_match (line : List Char) : Option (List Char) :=
  tryOptModGroup ["public".data, "private".data, "protected".data]
    (line.dropWhile isSpaceRx) (fun s1 =>
      tryOptModGroup ["static".data] s1 (fun s2 =>
        tryOptModGroup ["final".data] s2 javaFieldTail))

/-- `parse_parents` from `kotlin.rs`: split an inheritance clause on
top-level commas (tracking `<`/`>` depth), trimming each piece and
dropping empties. -/
def parse_parents_go (depth : Int) (cur : List Char) : List Char → List (List Char)
  | [] =>
    let last := trimChars cur
    if last ≠ [] then [last] else []
  | c :: cs =>
    if c = '<' then parse_parents_go (depth + 1) (cur ++ [c]) cs
    else if c = '>' then parse_parents_go (depth - 1) (cur ++ [c]) cs
    else if c = ',' && depth = 0 then
      let piece := trimChars cur
      if piece ≠ [] then piece :: parse_parents_go depth [] cs
      else parse_parents_go depth [] cs
    else parse_parents_go depth (cur ++ [c]) cs

/-- `parse_parents` from `kotlin.rs`. -/
def parse_parents (s : List Char) : List (List Char) :=
  parse_parents_go 0 [] s

/-- Rust `trim_end_matches("()")`: strip every trailing `()` pair. -/
def stripParensRev : List Char → List Char
  | ')' :: '(' :: rest => stripParensRev rest
  | l => l

/-- Strip all trailing occurrences of the suffix `()`. -/
def trimEndParens (l : List Char) : List Char :=
  (stripParensRev l.reverse).reverse

/-- `scan_line` inner loop of `collect_class_declaration`: update the
parenthesis depth, stopping at the first `{`. -/
def scanLineDepth : List Char → Int → Int × Bool
  | [], d => (d, false)
  | c :: cs, d =>
    if c = '(' then scanLineDepth cs (d + 1)
    else if c = ')' then scanLineDepth cs (d - 1)
    else if c = '\x7b' then (d, true)
    else scanLineDepth cs d

/-- The bounded line-collection loop of `collect_class_declaration`
(at most 20 lines; each visited line is appended with a space). -/
def collectDeclAux : Nat → Int → Bool → List (List Char) → List Char
  | 0, _, _, _ => []
  | _, _, _, [] => []
  | fuel + 1, depth, isFirst, l :: rest =>
    let (d', found) := scanLineDepth l depth
    if found then l ++ [' ']
    else if d' = 0 && l.contains ':' && !isFirst &&
        (match rest.head? with
         | some nxt => startsWithLit "\x7b".data (trimChars nxt)
         | none => false) then
      l ++ [' ']
    else l ++ [' '] ++ collectDeclAux fuel d' false rest

/-- `collect_class_declaration` from `kotlin.rs`. -/
def collect_class_declaration (lines : List (List Char)) (start : Nat) :
    List Char :=
  collectDeclAux 20 0 true (lines.drop start)

/-- Unanchored search for `INHERITANCE_RE = \)\s*:\s*([^{]+)`: the
leftmost `)` whose continuation matches. -/
def scanInheritance : List Char → Option (List Char)
  | [] => none
  | c :: cs =>
    if c = ')' then
      match tryColonCapture (fun d => d = '\x7b') cs with
      | some cap => some cap
      | none => scanInheritance cs
    else scanInheritance cs

/-- One attempt of `SIMPLE_RE = (?:class|object)\s+\w+(?:\s*<[^>]*>)?`
`\s*:\s*([^{(]+)` at a fixed position. -/
def trySimpleAt (s : List Char) : Option (List Char) :=
  let tail :=
    match stripLit "class".data s with
    | some r => some r
    | none => stripLit "object".data s
  match tail with
  | some r =>
    match wsThen1 r with
    | some r' =>
      match word1 r' with
      | some (_, r2) =>
        tryColonCapture (fun d => d = '\x7b' || d = '(') (optGeneric r2)
      | none => none
    | none => none
  | none => none

/-- Unanchored leftmost search for `SIMPLE_RE`. -/
def scanSimple : List Char → Option (List Char)
  | [] => none
  | c :: cs =>
    match trySimpleAt (c :: cs) with
    | some cap => some cap
    | none => scanSimple cs

/-- Parent-name cleanup common to both branches: trim, strip trailing
`()`, cut at the first `<`, trim again. -/
def cleanParentName (parent : List Char) : List Char :=
  trimChars ((trimEndParens (trimChars parent)).takeWhile (· ≠ '<'))

/-- `extract_parents_from_declaration` from `kotlin.rs`. -/
def extract_parents_from_declaration (decl : List Char) :
    List (String × String) :=
  let parents :=
    match scanInheritance decl with
    | some ps =>
      (parse_parents ps).filterMap (fun parent =>
        let inheritKind :=
          if containsSub "()".data parent then "extends" else "implements"
        let parentName := cleanParentName parent
        if parentName ≠ [] then some (String.mk parentName, inheritKind)
        else none)
    | none => []
  if parents = [] then
    match scanSimple decl with
    | some ps =>
      (parse_parents ps).filterMap (fun parent =>
        let parentName := cleanParentName parent
        if parentName ≠ [] then some (String.mk parentName, "implements")
        else none)
    | none => []
  else parents

/-- The symbols `parse_kotlin_symbols` pushes for one line, in source
order: class/object, interface, enum, function, property, typealias,
Java static field. -/
def kotlinLineSyms (lines : List (List Char)) (i : Nat) (line : List Char) :
    List ParsedSymbol :=
  let ln := i + 1
  let sig := String.mk (trimChars line)
  (match class_start_match line with
   | some n =>
     let kind := if containsSub "object ".data line then SymbolKind.Object
       else SymbolKind.Class
     let fullDecl := collect_class_declaration lines i
     [⟨String.mk n, kind, ln, sig, extract_parents_from_declaration fullDecl⟩]
   | none => []) ++
  (match interface_match line with
   | some (n, parentsStr) =>
     let parents :=
       match parentsStr with
       | some ps =>
         (parse_parents (trimChars ps)).filterMap (fun parent =>
           let parentName := trimChars ((trimChars parent).takeWhile (· ≠ '<'))
           if parentName ≠ [] then some (String.mk parentName, "extends")
           else none)
       | none => []
     [⟨String.mk n, SymbolKind.Interface, ln, sig, parents⟩]
   | none => []) ++
  (match enum_match line with
   | some n => [⟨String.mk n, SymbolKind.Enum, ln, sig, []⟩]
   | none => []) ++
  (match fun_match line with
   | some n => [⟨String.mk n, SymbolKind.Function, ln, sig, []⟩]
   | none => []) ++
  (match property_match line with
   | some n =>
     if n ≠ [] && n ≠ "val".data && n ≠ "var".data then
       [⟨String.mk n, SymbolKind.Property, ln, sig, []⟩]
     else []
   | none => []) ++
  (match typealias_match line with
   | some n => [⟨String.mk n, SymbolKind.TypeAlias, ln, sig, []⟩]
   | none => []) ++
  (match java_field_match line with
   | some n =>
     if n ≠ [] then [⟨String.mk n, SymbolKind.Property, ln, sig, []⟩]
     else []
   | none => [])

/-- `parse_kotlin_symbols` from `kotlin.rs`. -/
def parse_kotlin_symbols (content : String) : List ParsedSymbol :=
  let lines := rustLines content.data
  flatMapL (fun p => kotlinLineSyms lines p.1 p.2) (enumFrom 0 lines)

example : (parse_kotlin_symbols "class MyService \x7b\n\x7d").map
    (fun s => (s.name, s.kind)) = [("MyService", SymbolKind.Class)] := by decide

example : (parse_kotlin_symbols "object Singleton \x7b\n\x7d").map
    (fun s => (s.name, s.kind)) = [("Singleton", SymbolKind.Object)] := by decide

example : (parse_kotlin_symbols "data class User(val name: String, val age: Int)").map
    (fun s => (s.name, s.kind)) = [("User", SymbolKind.Class)] := by decide

example : (parse_kotlin_symbols "    suspend fun fetchData(): Result<Data> \x7b\n    \x7d").map
    (fun s => (s.name, s.kind)) = [("fetchData", SymbolKind.Function)] := by decide

example : (parse_kotlin_symbols "fun String.toSlug(): String = this.lowercase()").map
    (fun s => (s.name, s.kind)) = [("toSlug", SymbolKind.Function)] := by decide

example : (parse_kotlin_symbols "    public static final String TAG = \"MyClass\";").map
    (fun s => (s.name, s.kind)) = [("TAG", SymbolKind.Property)] := by decide

example : (parse_kotlin_symbols "typealias StringMap = Map<String, String>").map
    (fun s => (s.name, s.kind)) = [("StringMap", SymbolKind.TypeAlias)] := by decide

example : (parse_kotlin_symbols "interface UserRepository : BaseRepository<User> \x7b\n\x7d").map
    (fun s => (s.name, s.kind, s.parents)) =
      [("UserRepository", SymbolKind.Interface, [("BaseRepository", "extends")])] := by
  decide

example : parse_parents "BaseAdapter<Item>, Serializable, Comparable<Item>".data =
    ["BaseAdapter<Item>".data, "Serializable".data, "Comparable<Item>".data] := by decide

example : (parse_kotlin_symbols "class Child : Parent \x7b\n\x7d").map
    (fun s => (s.name, s.parents)) = [("Child", [("Parent", "implements")])] := by decide

example :
    (parse_kotlin_symbols
      "class AppModule(\n    private val context: Context\n) : Module(),\n    Serializable \x7b\n\x7d").map
      (fun s => (s.name, s.kind, s.parents)) =
    [("AppModule", SymbolKind.Class, [("Module", "extends"), ("Serializable", "implements")]),
     ("context", SymbolKind.Property, [])] := by decide

example : (extract_references "val repo: PaymentRepository = PaymentRepositoryImpl()" []).map
    (·.name) = ["PaymentRepository", "PaymentRepositoryImpl"] := by decide

example : extract_references "if (true) return String" [] = [] := by decide

example :
    (extract_references "// MyService is used here\nfoo(1)\nab(2)" []).map (·.name)
      = ["foo"] := by decide

/-! ## Objective-C parser (`src/parsers/objc.rs`) -/

/-- Rust `trim_matches` with a character predicate: strip all matching
characters from both ends. -/
def trimMatches (p : Char → Bool) (l : List Char) : List Char :=
  ((l.dropWhile p).reverse.dropWhile p).reverse

/-- `INTERFACE_RE` (objc): `^[\s]*@interface\s+(\w+)(?:\s*\([^)]*\))?`
`(?:\s*:\s*(\w+))?(?:\s*<([^>]+)>)?`, returning the name, the optional
superclass capture and the optional protocol-list capture. -/
def objc_interface_match (line : List Char) :
    Option (List Char × Option (List Char) × Option (List Char)) :=
  match stripLit "@interface".data (line.dropWhile isSpaceRx) with
  | some r =>
    match wsThen1 r with
    | some r' =>
      match word1 r' with
      | some (n, r2) =>
        -- optional category parentheses `(?:\s*\([^)]*\))?`
        let r3 :=
          match r2.dropWhile isSpaceRx with
          | '(' :: t =>
            (match t.dropWhile (· ≠ ')') with
             | ')' :: t2 => t2
             | _ => r2)
          | _ => r2
        -- optional superclass `(?:\s*:\s*(\w+))?`
        let superAndRest :=
          match r3.dropWhile isSpaceRx with
          | ':' :: t =>
            (match word1 (t.dropWhile isSpaceRx) with
             | some (w, t2) => (some w, t2)
             | none => (none, r3))
          | _ => (none, r3)
        -- optional protocol list `(?:\s*<([^>]+)>)?`
        let protos :=
          match superAndRest.2.dropWhile isSpaceRx with
          | '<' :: t =>
            (match t.takeWhile (· ≠ '>') with
             | [] => none
             | inner =>
               match t.dropWhile (· ≠ '>') with
               | '>' :: _ => some inner
               | _ => none)
          | _ => none
        some (n, superAndRest.1, protos)
      | none => none
    | none => none
  | none => none

/-- `PROTOCOL_RE` (objc): `^[\s]*@protocol\s+(\w+)(?:\s*<([^>]+)>)?`. -/
def objc_protocol_match (line : List Char) :
    Option (List Char × Option (List Char)) :=
  match stripLit "@protocol".data (line.dropWhile isSpaceRx) with
  | some r =>
    match wsThen1 r with
    | some r' =>
      match word1 r' with
      | some (n, r2) =>
        let protos :=
          match r2.dropWhile isSpaceRx with
          | '<' :: t =>
            (match t.takeWhile (· ≠ '>') with
             | [] => none
             | inner =>
               match t.dropWhile (· ≠ '>') with
               | '>' :: _ => some inner
               | _ => none)
          | _ => none
        some (n, protos)
      | none => none
    | none => none
  | none => none

/-- `IMPL_RE` (objc): `^[\s]*@implementation\s+(\w+)`. -/
def objc_impl_match (line : List Char) : Option (List Char) :=
  match stripLit "@implementation".data (line.dropWhile isSpaceRx) with
  | some r =>
    match wsThen1 r with
    | some r' => (word1 r').map (·.1)
    | none => none
  | none => none

/-- `METHOD_RE` (objc): `^[\s]*[-+]\s*\([^)]+\)\s*(\w+)`. -/
def objc_method_match (line : List Char) : Option (List Char) :=
  match line.dropWhile isSpaceRx with
  | c :: cs =>
    if c = '-' || c = '+' then
      match cs.dropWhile isSpaceRx with
      | '(' :: t =>
        (match t.takeWhile (· ≠ ')') with
         | [] => none
         | _ :: _ =>
           match t.dropWhile (· ≠ ')') with
           | ')' :: t2 => (word1 (t2.dropWhile isSpaceRx)).map (·.1)
           | _ => none)
      | _ => none
    else none
  | [] => none

/-- The `[\s*]*(\w+)\s*;` tail of the Objective-C property pattern,
applied at one backtracking position of the leading `\w+`. -/
def objcPropTail (s : List Char) : Option (List Char) :=
  match word1 (s.dropWhile (fun c => isSpaceRx c || c = '*')) with
  | some (cap, r) =>
    (match r.dropWhile isSpaceRx with
     | ';' :: _ => some cap
     | _ => none)
  | none => none

/-- Backtrack the greedy leading `\w+` of the property pattern from its
maximal extent down to a single character (`firstRev` holds the not yet
given back part, reversed). -/
def objcPropBacktrack : List Char → List Char → Option (List Char)
  | [], _ => none
  | c :: rest, pos =>
    match objcPropTail pos with
    | some cap => some cap
    | none => objcPropBacktrack rest (c :: pos)

/-- `PROPERTY_RE` (objc): `^[\s]*@property\s*(?:\([^)]*\))?\s*\w+[\s*]*`
`(\w+)\s*;`. -/
def objc_property_match (line : List Char) : Option (List Char) :=
  match stripLit "@property".data (line.dropWhile isSpaceRx) with
  | some r =>
    let r1 := r.dropWhile isSpaceRx
    let r2 :=
      match r1 with
      | '(' :: t =>
        (match t.dropWhile (· ≠ ')') with
         | ')' :: t2 => t2
         | _ => r1)
      | _ => r1
    match word1 (r2.dropWhile isSpaceRx) with
    | some (w, after) => objcPropBacktrack w.reverse after
    | none => none
  | none => none

/-- The `\}?\s*(\w+)\s*;` tail of the typedef pattern at one
backtracking position of `[^}]*`. -/
def typedefTail (s : List Char) : Option (List Char) :=
  let s1 := match s with
    | '\x7d' :: t => t
    | _ => s
  match word1 (s1.dropWhile isSpaceRx) with
  | some (cap, r) =>
    (match r.dropWhile isSpaceRx with
     | ';' :: _ => some cap
     | _ => none)
  | none => none

/-- Backtrack the greedy `[^}]*` of the typedef pattern from maximal
down to the empty match. -/
def typedefShrink : List Char → List Char → Option (List Char)
  | [], pos => typedefTail pos
  | c :: rest, pos =>
    match typedefTail pos with
    | some cap => some cap
    | none => typedefShrink rest (c :: pos)

/-- `\{?[^}]*\}?\s*(\w+)\s*;` body of the typedef pattern. An initial
`{` may be consumed by `\{?` or by `[^}]*`; the former is preferred. -/
def typedefBody (s : List Char) : Option (List Char) :=
  let attempt := fun (u : List Char) =>
    typedefShrink (u.takeWhile (· ≠ '\x7d')).reverse (u.dropWhile (· ≠ '\x7d'))
  match s with
  | '\x7b' :: t =>
    (match attempt t with
     | some cap => some cap
     | none => attempt s)
  | _ => attempt s

/-- An optional alternation group `(?:a1|...|ak)?` with full fallback:
each alternative is tried in order against the continuation `k`, then
the group is dropped. -/
def tryOptAlts (alts : List (List Char)) (s : List Char)
    (k : List Char → Option (List Char)) : Option (List Char) :=
  match alts with
  | [] => k s
  | a :: rest =>
    match stripLit a s with
    | some r =>
      (match k r with
       | some v => some v
       | none => tryOptAlts rest s k)
    | none => tryOptAlts rest s k

/-- An optional parenthesized group `(?:\([^)]*\))?` with fallback. -/
def tryOptParen (s : List Char) (k : List Char → Option (List Char)) :
    Option (List Char) :=
  match s with
  | '(' :: t =>
    (match t.dropWhile (· ≠ ')') with
     | ')' :: t2 =>
       (match k t2 with
        | some v => some v
        | none => k s)
     | _ => k s)
  | _ => k s

/-- `TYPEDEF_RE` (objc): `^[\s]*typedef\s+(?:struct|enum|NS_ENUM|NS_OPTIONS)?`
`\s*(?:\([^)]*\))?\s*\{?[^}]*\}?\s*(\w+)\s*;`. -/
def objc_typedef_match (line : List Char) : Option (List Char) :=
  match stripLit "typedef".data (line.dropWhile isSpaceRx) with
  | some r =>
    match wsThen1 r with
    | some r' =>
      tryOptAlts ["struct".data, "enum".data, "NS_ENUM".data, "NS_OPTIONS".data]
        r' (fun r1 =>
          tryOptParen (r1.dropWhile isSpaceRx) (fun r2 =>
            typedefBody (r2.dropWhile isSpaceRx)))
    | none => none
  | none => none

/-- The `@interface` branch of the objc line loop: a category line
(parentheses right after the name, checked on the raw line text)
produces a `Name+Category` Object extending `Name`, otherwise a Class
with the superclass as `extends` and each protocol as `implements`. -/
def objcInterfaceStep (ln : Nat) (line : List Char) (acc : List ParsedSymbol) :
    List ParsedSymbol :=
  match objc_interface_match line with
  | some (n, superOpt, protosOpt) =>
    if containsSub (n ++ "(".data) line || containsSub (n ++ " (".data) line then
      acc ++ [⟨String.mk (n ++ "+Category".data), SymbolKind.Object, ln,
        String.mk (trimChars line), [(String.mk n, "extends")]⟩]
    else
      acc ++ [⟨String.mk n, SymbolKind.Class, ln, String.mk (trimChars line),
        (match superOpt with
         | some sup => [(String.mk sup, "extends")]
         | none => []) ++
        (match protosOpt with
         | some protos =>
           (splitOnPred (· = ',') protos).filterMap (fun p =>
             if trimChars p ≠ [] then some (String.mk (trimChars p), "implements")
             else none)
         | none => [])⟩]
  | none => acc

/-- The `@protocol` branch: an Interface whose `<...>` parents are
`extends` edges. -/
def objcProtocolStep (ln : Nat) (line : List Char) (acc : List ParsedSymbol) :
    List ParsedSymbol :=
  match objc_protocol_match line with
  | some (n, protosOpt) =>
    acc ++ [⟨String.mk n, SymbolKind.Interface, ln, String.mk (trimChars line),
      (match protosOpt with
       | some protos =>
         (splitOnPred (· = ',') protos).filterMap (fun p =>
           if trimChars p ≠ [] then some (String.mk (trimChars p), "extends")
           else none)
       | none => [])⟩]
  | none => acc

/-- The `@implementation` branch: pushes a Class only when the already
collected symbols contain no Class of the same name. -/
def objcImplStep (ln : Nat) (line : List Char) (acc : List ParsedSymbol) :
    List ParsedSymbol :=
  match objc_impl_match line with
  | some n =>
    if acc.any (fun s => s.name == String.mk n && s.kind == SymbolKind.Class)
    then acc
    else acc ++ [⟨String.mk n, SymbolKind.Class, ln, String.mk (trimChars line), []⟩]
  | none => acc

/-- The method branch. -/
def objcMethodStep (ln : Nat) (line : List Char) (acc : List ParsedSymbol) :
    List ParsedSymbol :=
  match objc_method_match line with
  | some n =>
    acc ++ [⟨String.mk n, SymbolKind.Function, ln, String.mk (trimChars line), []⟩]
  | none => acc

/-- The `@property` branch. -/
def objcPropertyStep (ln : Nat) (line : List Char) (acc : List ParsedSymbol) :
    List ParsedSymbol :=
  match objc_property_match line with
  | some n =>
    acc ++ [⟨String.mk n, SymbolKind.Property, ln, String.mk (trimChars line), []⟩]
  | none => acc

/-- The typedef branch, suppressing the macro names themselves. -/
def objcTypedefStep (ln : Nat) (line : List Char) (acc : List ParsedSymbol) :
    List ParsedSymbol :=
  match objc_typedef_match line with
  | some n =>
    if String.mk n ≠ "" && String.mk n ≠ "NS_ENUM" && String.mk n ≠ "NS_OPTIONS"
    then acc ++ [⟨String.mk n, SymbolKind.TypeAlias, ln, String.mk (trimChars line),
      []⟩]
    else acc
  | none => acc

/-- Process one line of `parse_objc_symbols`, in the branch order of the
source: `@interface`, `@protocol`, `@implementation` (deduplicated
against the already-collected symbols), methods, `@property`,
`typedef`. -/
def objc_process_line (acc : List ParsedSymbol) (ln : Nat) (line : List Char) :
    List ParsedSymbol :=
  objcTypedefStep ln line (objcPropertyStep ln line (objcMethodStep ln line
    (objcImplStep ln line (objcProtocolStep ln line
      (objcInterfaceStep ln line acc)))))

/-- The line-driver loop of `parse_objc_symbols`. -/
def parse_objc_go : Nat → List (List Char) → List ParsedSymbol → List ParsedSymbol
  | _, [], acc => acc
  | ln, l :: rest, acc => parse_objc_go (ln + 1) rest (objc_process_line acc ln l)

/-- `parse_objc_symbols` applied to a list of lines, lines numbered
from `n`. -/
def parse_objc_lines (ls : List (List Char)) : List ParsedSymbol :=
  parse_objc_go 1 ls []

/-- `parse_objc_symbols` from `objc.rs`. -/
def parse_objc_symbols (content : String) : List ParsedSymbol :=
  parse_objc_lines (rustLines content.data)

example : (parse_objc_symbols "@interface MyView : UIView <UITableViewDelegate, UITableViewDataSource>\n@end").map
    (fun s => (s.name, s.kind, s.parents)) =
  [("MyView", SymbolKind.Class,
    [("UIView", "extends"), ("UITableViewDelegate", "implements"),
     ("UITableViewDataSource", "implements")])] := by decide

example : (parse_objc_symbols "@interface NSString (Utilities)\n@end").map
    (fun s => (s.name, s.kind, s.parents)) =
  [("NSString+Category", SymbolKind.Object, [("NSString", "extends")])] := by decide

example : (parse_objc_symbols "@protocol Fetchable <NSObject>\n@end").map
    (fun s => (s.name, s.kind, s.parents)) =
  [("Fetchable", SymbolKind.Interface, [("NSObject", "extends")])] := by decide

example : (parse_objc_symbols "@implementation MyService\n@end").map
    (fun s => (s.name, s.kind)) = [("MyService", SymbolKind.Class)] := by decide

example :
    ((parse_objc_symbols "@interface MyClass : NSObject\n@end\n@implementation MyClass\n@end").filter
      (fun s => s.name == "MyClass" && s.kind == SymbolKind.Class)).length = 1 := by
  decide

example : (parse_objc_symbols "- (void)viewDidLoad \x7b\n\x7d\n+ (instancetype)sharedInstance \x7b\n\x7d").map
    (fun s => (s.name, s.kind)) =
  [("viewDidLoad", SymbolKind.Function), ("sharedInstance", SymbolKind.Function)] := by
  decide

example : (parse_objc_symbols "@property (nonatomic, strong) NSString *name;").map
    (fun s => (s.name, s.kind)) = [("name", SymbolKind.Property)] := by decide

example : (parse_objc_symbols "typedef struct \x7b int x; int y; \x7d CGPoint;").map
    (fun s => (s.name, s.kind)) = [("CGPoint", SymbolKind.TypeAlias)] := by decide

/-! ## Perl parser (`src/parsers/perl.rs`) -/

/-- `PACKAGE_RE`: `^\s*package\s+([A-Za-z_][A-Za-z0-9_:]*)\s*;`. -/
def package_match (line : List Char) : Option (List Char) :=
  match stripLit "package".data (line.dropWhile isSpaceRx) with
  | some r =>
    match wsThen1 r with
    | some r' =>
      (match r' with
       | c :: t =>
         if c.isAlpha || c = '_' then
           let p := fun (d : Char) => d.isAlpha || d.isDigit || d = '_' || d = ':'
           match (t.dropWhile p).dropWhile isSpaceRx with
           | ';' :: _ => some (c :: t.takeWhile p)
           | _ => none
         else none
       | [] => none)
    | none => none
  | none => none

/-- `SUB_RE`: `^\s*sub\s+([A-Za-z_][A-Za-z0-9_]*)\s*[\{(]?` (the trailing
optional bracket cannot fail). -/
def sub_match (line : List Char) : Option (List Char) :=
  match stripLit "sub".data (line.dropWhile isSpaceRx) with
  | some r =>
    match wsThen1 r with
    | some r' =>
      (match r' with
       | c :: t =>
         if c.isAlpha || c = '_' then some (c :: t.takeWhile isWordCh) else none
       | [] => none)
    | none => none
  | none => none

/-- `CONSTANT_RE`: `^\s*use\s+constant\s+([A-Z_][A-Z0-9_]*)\s*=>`. -/
def constant_match (line : List Char) : Option (List Char) :=
  match stripLit "use".data (line.dropWhile isSpaceRx) with
  | some r =>
    match wsThen1 r with
    | some r' =>
      match stripLit "constant".data r' with
      | some r2 =>
        (match wsThen1 r2 with
         | some r3 =>
           (match r3 with
            | c :: t =>
              if c.isUpper || c = '_' then
                let p := fun (d : Char) => d.isUpper || d.isDigit || d = '_'
                match stripLit "=>".data ((t.dropWhile p).dropWhile isSpaceRx) with
                | some _ => some (c :: t.takeWhile p)
                | none => none
              else none
            | [] => none)
         | none => none)
      | none => none
    | none => none
  | none => none

/-- `OUR_RE`: `^\s*our\s+([\$@%][A-Za-z_][A-Za-z0-9_]*)`. -/
def our_match (line : List Char) : Option (List Char) :=
  match stripLit "our".data (line.dropWhile isSpaceRx) with
  | some r =>
    match wsThen1 r with
    | some r' =>
      (match r' with
       | sig :: c :: t =>
         if (sig = '$' || sig = '@' || sig = '%') && (c.isAlpha || c = '_') then
           some (sig :: c :: t.takeWhile isWordCh)
         else none
       | _ => none)
    | none => none
  | none => none

/-- The `qw[/(]([^)/\\]+)[)/\\]` alternative shared by the inheritance
patterns. -/
def qwCapture (s : List Char) : Option (List Char) :=
  match stripLit "qw".data s with
  | some (d :: t) =>
    if d = '/' || d = '(' then
      let excl := fun (c : Char) => c = ')' || c = '/' || c = '\\'
      match t.takeWhile (fun c => !excl c) with
      | [] => none
      | cap =>
        match t.dropWhile (fun c => !excl c) with
        | _ :: _ => some cap
        | [] => none
    else none
  | _ => none

/-- The `['"]([^'"]+)['"]` alternative of `USE_BASE_RE`. -/
def quotedCapture (s : List Char) : Option (List Char) :=
  match s with
  | q :: t =>
    if q = '\'' || q = '"' then
      let excl := fun (c : Char) => c = '\'' || c = '"'
      match t.takeWhile (fun c => !excl c) with
      | [] => none
      | cap =>
        match t.dropWhile (fun c => !excl c) with
        | _ :: _ => some cap
        | [] => none
    else none
  | [] => none

/-- One attempt of `USE_BASE_RE = use\s+(?:base|parent)\s+`
`(?:qw[/(]([^)/\\]+)[)/\\]|['"]([^'"]+)['"])` at a fixed position. -/
def tryUseBaseAt (s : List Char) : Option (List Char) :=
  match stripLit "use".data s with
  | some r =>
    match wsThen1 r with
    | some r' =>
      let tail :=
        match stripLit "base".data r' with
        | some r2 => some r2
        | none => stripLit "parent".data r'
      match tail with
      | some r2 =>
        (match wsThen1 r2 with
         | some r3 =>
           (match qwCapture r3 with
            | some cap => some cap
            | none => quotedCapture r3)
         | none => none)
      | none => none
    | none => none
  | none => none

/-- Unanchored leftmost search for `USE_BASE_RE`. -/
def scanUseBase : List Char → Option (List Char)
  | [] => none
  | c :: cs =>
    match tryUseBaseAt (c :: cs) with
    | some cap => some cap
    | none => scanUseBase cs

/-- One attempt of `ISA_RE = our\s+@ISA\s*=\s*`
`(?:qw[/(]([^)/\\]+)[)/\\]|\(([^)]+)\))` at a fixed position. -/
def tryIsaAt (s : List Char) : Option (List Char) :=
  match stripLit "our".data s with
  | some r =>
    match wsThen1 r with
    | some r' =>
      match stripLit "@ISA".data r' with
      | some r2 =>
        (match r2.dropWhile isSpaceRx with
         | '=' :: t =>
           let r3 := t.dropWhile isSpaceRx
           (match qwCapture r3 with
            | some cap => some cap
            | none =>
              match r3 with
              | '(' :: u =>
                (match u.takeWhile (· ≠ ')') with
                 | [] => none
                 | cap =>
                   match u.dropWhile (· ≠ ')') with
                   | ')' :: _ => some cap
                   | _ => none)
              | _ => none)
         | _ => none)
      | none => none
    | none => none
  | none => none

/-- Unanchored leftmost search for `ISA_RE`. -/
def scanIsa : List Char → Option (List Char)
  | [] => none
  | c :: cs =>
    match tryIsaAt (c :: cs) with
    | some cap => some cap
    | none => scanIsa cs

/-- Rust `split_whitespace`: maximal non-whitespace runs. -/
def splitWsAux (cur : List Char) : List Char → List (List Char)
  | [] =>
    (match cur with
     | [] => []
     | _ => [cur.reverse])
  | c :: cs =>
    if isSpaceRx c then
      match cur with
      | [] => splitWsAux [] cs
      | _ => cur.reverse :: splitWsAux [] cs
    else splitWsAux (c :: cur) cs

/-- Rust `split_whitespace`. -/
def splitWs (l : List Char) : List (List Char) :=
  splitWsAux [] l

/-- Replace the element at an index (no-op when out of range). -/
def modifyAt (f : α → α) : Nat → List α → List α
  | _, [] => []
  | 0, a :: as => f a :: as
  | n + 1, a :: as => a :: modifyAt f n as

/-- Parser state of `parse_perl_symbols`: collected symbols, the current
package `(name, index)`, and parents seen before the first package. -/
structure PerlState where
  symbols : List ParsedSymbol
  currentPkg : Option (String × Nat)
  pending : List (String × String)

/-- Attach inheritance entries: to the current package when one exists
(guarded by the source's bounds check), otherwise to the pending list. -/
def perlAttachParents (st : PerlState) (ps : List (String × String)) : PerlState :=
  match st.currentPkg with
  | some (_, idx) =>
    if idx < st.symbols.length then
      { st with symbols :=
          modifyAt (fun s => { s with parents := s.parents ++ ps }) idx st.symbols }
    else st
  | none => { st with pending := st.pending ++ ps }

/-- One line of `parse_perl_symbols`: `package`/`sub`/`use constant`
short-circuit (`continue`); otherwise the `our` branch (suppressing
`@ISA`) falls through to the `use base`/`use parent` and `@ISA`
inheritance branches. -/
def perl_step (st : PerlState) (ln : Nat) (line : List Char) : PerlState :=
  let sig := String.mk (trimChars line)
  match package_match line with
  | some n =>
    let name := String.mk n
    let syms := st.symbols ++ [⟨name, SymbolKind.Package, ln, sig, st.pending⟩]
    { symbols := syms, currentPkg := some (name, syms.length - 1), pending := [] }
  | none =>
  match sub_match line with
  | some n =>
    { st with symbols :=
        st.symbols ++ [⟨String.mk n, SymbolKind.Function, ln, sig, []⟩] }
  | none =>
  match constant_match line with
  | some n =>
    { st with symbols :=
        st.symbols ++ [⟨String.mk n, SymbolKind.Constant, ln, sig, []⟩] }
  | none =>
    let st :=
      match our_match line with
      | some n =>
        if String.mk n ≠ "@ISA" then
          { st with symbols :=
              st.symbols ++ [⟨String.mk n, SymbolKind.Property, ln, sig, []⟩] }
        else st
      | none => st
    let st :=
      match scanUseBase line with
      | some ps =>
        perlAttachParents st ((splitWs ps).filterMap (fun p =>
          let p' := trimChars p
          if p' ≠ [] then some (String.mk p', "extends") else none))
      | none => st
    match scanIsa line with
    | some ps =>
      perlAttachParents st
        ((splitOnPred (fun c => isSpaceRx c || c = ',') ps).filterMap (fun p =>
          let p' := trimMatches (fun c => c = '\'' || c = '"') (trimChars p)
          if p' ≠ [] then some (String.mk p', "extends") else none))
    | none => st

/-- The line-driver loop of `parse_perl_symbols`. -/
def parse_perl_go : Nat → List (List Char) → PerlState → PerlState
  | _, [], st => st
  | ln, l :: rest, st => parse_perl_go (ln + 1) rest (perl_step st ln l)

/-- `parse_perl_symbols` from `perl.rs`. -/
def parse_perl_symbols (content : String) : List ParsedSymbol :=
  (parse_perl_go 1 (rustLines content.data) ⟨[], none, []⟩).symbols

example : (parse_perl_symbols "package My::Module;").map (fun s => (s.name, s.kind)) =
    [("My::Module", SymbolKind.Package)] := by decide

example : (parse_perl_symbols "sub process_data \x7b\n    my ($self) = @_;\n\x7d").map
    (fun s => (s.name, s.kind)) = [("process_data", SymbolKind.Function)] := by decide

example : (parse_perl_symbols "use constant MAX_RETRIES => 3;").map
    (fun s => (s.name, s.kind)) = [("MAX_RETRIES", SymbolKind.Constant)] := by decide

example : (parse_perl_symbols "our $VERSION = '1.0';\nour @EXPORT = qw(foo bar);\nour %CONFIG;").map
    (fun s => (s.name, s.kind)) =
  [("$VERSION", SymbolKind.Property), ("@EXPORT", SymbolKind.Property),
   ("%CONFIG", SymbolKind.Property)] := by decide

example : (parse_perl_symbols "package Child;\nuse base qw/Parent1 Parent2/;").map
    (fun s => (s.name, s.parents)) =
  [("Child", [("Parent1", "extends"), ("Parent2", "extends")])] := by decide

example : (parse_perl_symbols "package MyModule;\nuse parent 'Base::Class';").map
    (fun s => (s.name, s.parents)) = [("MyModule", [("Base::Class", "extends")])] := by
  decide

/-! ## Unused-symbol analysis (`src/commands/analysis.rs`)

The store is modelled relationally: the symbol rows joined with their
file path (the columns the `SELECT` returns), and the three usage tables
by their probed column. The SQL `ORDER BY f.path, s.line` is modelled by
an insertion sort on the `(path, line)` key; `SELECT COUNT(*) ... WHERE
name = ?` probes are list membership. The `kind IN ('class', ...)`
filter is stated on the kind enumeration directly, relying on the
store's one-to-one textual kind labels. -/

/-- A row of the candidate `SELECT` (`db::SearchResult`). -/
structure SymRow where
  name : String
  kind : SymbolKind
  line : Nat
  signature : String
  path : String
deriving DecidableEq, Repr

/-- The relational store as visible to `cmd_unused_symbols`. -/
structure IndexDb where
  symbols : List SymRow
  refNames : List String
  xmlClassNames : List String
  sbClassNames : List String

/-- `s.kind IN ('class','interface','function','object','enum',`
`'protocol','struct')`. -/
def candidateKind : SymbolKind → Bool
  | SymbolKind.Class | SymbolKind.Interface | SymbolKind.Function
  | SymbolKind.Object | SymbolKind.Enum | SymbolKind.Protocol
  | SymbolKind.Struct => true
  | _ => false

/-- Lexicographic (code point = UTF-8 byte) order on path characters,
the SQLite default collation used by `ORDER BY f.path`. -/
def charListLt : List Char → List Char → Bool
  | [], [] => false
  | [], _ :: _ => true
  | _ :: _, [] => false
  | c :: cs, d :: ds =>
    if c < d then true else if d < c then false else charListLt cs ds

/-- The `ORDER BY f.path, s.line` key. -/
def pathLineLe (a b : SymRow) : Bool :=
  if a.path = b.path then decide (a.line ≤ b.line)
  else charListLt a.path.data b.path.data

/-- Insertion into a sorted list. -/
def insertSorted (le : α → α → Bool) (a : α) : List α → List α
  | [] => [a]
  | b :: bs => if le a b then a :: b :: bs else b :: insertSorted le a bs

/-- Insertion sort. -/
def insertionSort (le : α → α → Bool) : List α → List α
  | [] => []
  | a :: as => insertSorted le a (insertionSort le as)

/-- The candidate query of `cmd_unused_symbols` (no module filter, no
export-only filter): kind-filtered symbols ordered by `(path, line)`. -/
def candidateRows (db : IndexDb) : List SymRow :=
  insertionSort pathLineLe (db.symbols.filter (fun s => candidateKind s.kind))

/-- The three usage probes (`refs.name`, `xml_usages.class_name`,
`storyboard_usages.class_name`). -/
def referencedInDb (db : IndexDb) (n : String) : Bool :=
  db.refNames.contains n || db.xmlClassNames.contains n ||
    db.sbClassNames.contains n

/-- The collection loop of `cmd_unused_symbols`: skip referenced
candidates, push an unreferenced one, and break once the collected
count reaches `limit` (checked after the push). `cnt` is the number
already collected. -/
def unused_loop (db : IndexDb) (limit : Nat) : List SymRow → Nat → List SymRow
  | [], _ => []
  | s :: rest, cnt =>
    if referencedInDb db s.name then unused_loop db limit rest cnt
    else if cnt + 1 ≥ limit then [s]
    else s :: unused_loop db limit rest (cnt + 1)

/-- `cmd_unused_symbols` from `analysis.rs` (the reported rows, in
report order). -/
def cmd_unused_symbols (db : IndexDb) (limit : Nat) : List SymRow :=
  unused_loop db limit (candidateRows db) 0

/-! ## Watch loop (`src/commands/watch.rs`)

The debouncer channel is modelled by the sequence of `rx.recv()`
results the loop consumes: a debounced event batch (`Ok(Ok(events))`,
summarised by whether the filtered change set is nonempty and whether
the triggered incremental update succeeded — both only logged), a watch
error (`Ok(Err(_))`, logged), or a channel error (`Err(_)`, the only
way out of the loop). `none` models a loop still blocked on `recv`. -/

inductive WatchMsg where
  | batch (relevantChanges : Bool) (updateOk : Bool)
  | watchErr
  | chanErr
deriving DecidableEq, Repr

/-- The receive loop of `cmd_watch`: batches and watch errors are
processed and the loop continues; a channel error breaks out, after
which the function returns `Ok(())`. -/
def watch_loop : List WatchMsg → Option (Except String Unit)
  | [] => none
  | WatchMsg.chanErr :: _ => some (Except.ok ())
  | _ :: rest => watch_loop rest

/-- `cmd_watch` from `watch.rs`: missing index prints a hint and returns
`Ok`; a debouncer/watcher setup failure propagates as an error; then
the receive loop runs. -/
def cmd_watch (dbExists : Bool) (setup : Except String Unit)
    (msgs : List WatchMsg) : Option (Except String Unit) :=
  if !dbExists then some (Except.ok ())
  else
    match setup with
    | Except.error e => some (Except.error e)
    | Except.ok _ => watch_loop msgs

/-! ## Declarative predicates used by the claim statements -/

/-- The amended context invariant: the context equals the trimmed line,
or it is a prefix of at most 500 characters of the trimmed line followed
by `"..."`. -/
def contextShapeOk (ctx t : List Char) : Bool :=
  ctx == t ||
  (decide (3 ≤ ctx.length) && (ctx.drop (ctx.length - 3) == "...".data) &&
   (ctx.take (ctx.length - 3)).isPrefixOf t &&
   decide (ctx.length - 3 ≤ 500))

/-- A word boundary before position `i` of a line (start of line, or a
non-word character at `i - 1`). -/
def wordBoundaryAt (l : List Char) (i : Nat) : Prop :=
  i = 0 ∨ ∃ c, l.get? (i - 1) = some c ∧ isWordCh c = false

/-- The declarative shape of a `FUNC_CALL_RE` match at the head of `s`:
a nonempty lowercase-initial alphanumeric identifier `n`, followed by
optional whitespace and then a literal `(`. -/
def callMatchAt (s n : List Char) : Prop :=
  ∃ c m rest, n = c :: m ∧ s = n ++ rest ∧ c.isLower = true ∧
    (∀ d ∈ m, isAlnumCh d = true) ∧
    (rest.dropWhile isSpaceRx).head? = some '('

/-- Some position of the line carries a `FUNC_CALL_RE` match with
capture `n`. -/
def callCandidate (l n : List Char) : Prop :=
  ∃ i, wordBoundaryAt l i ∧ callMatchAt (l.drop i) n

/-! ## Concrete inputs used by the claims -/

/-- Scenario S1: Kotlin class with inheritance. -/
def c3Input : String :=
  "class MyFragment(arg: String) : Fragment(), Serializable \x7b \x7d"

/-- Scenario S3: Perl package with ISA inheritance. -/
def c5Input : String := "package Derived;\nour @ISA = qw(Base1 Base2);\n"

/-- Scenario S4: reference deduplication against local definitions. -/
def c6Input : String :=
  "class MyClass \x7b\n  val other: OtherClass = OtherClass()\n\x7d"

/-- A 504-character ASCII identifier line: the stored context becomes
500 characters plus `"..."`. -/
def c1Input : String := String.mk (List.replicate 504 'A')

/-- A line of 2001 characters whose trimmed content is short. -/
def c8Input : String := String.mk (List.replicate 1998 ' ' ++ "Abc".data)

/-- A call candidate separated from its parenthesis by whitespace. -/
def c7Input : String := "foobar (1)"

/-- Objective-C file with the implementation before the interface. -/
def c4Input : String := "@implementation Foo\n@interface Foo : NSObject"

/-- Objective-C file with the interface before the implementation. -/
def c4InputOrdered : String := "@interface Foo : NSObject\n@implementation Foo"

/-- An `enum class` line that also contains the substring `"object "`. -/
def c10Input : String := "enum class Direction \x7b companion object Foo \x7d"

/-- Store with two unreferenced candidate classes. -/
def c2Db : IndexDb :=
  ⟨[⟨"OrphanA", SymbolKind.Class, 1, "class OrphanA", "a.kt"⟩,
    ⟨"OrphanB", SymbolKind.Class, 2, "class OrphanB", "b.kt"⟩], [], [], []⟩

/-! ## General list lemmas -/

theorem mem_flatMapL {f : α → List β} {x : β} :
    ∀ {l : List α}, x ∈ flatMapL f l ↔ ∃ a ∈ l, x ∈ f a := by
  intro l
  induction l with
  | nil => simp [flatMapL]
  | cons a as ih => simp [flatMapL, List.mem_append, ih]

theorem mem_enumFrom {x : Nat × α} :
    ∀ {n : Nat} {l : List α},
      x ∈ enumFrom n l ↔ ∃ k, l.get? k = some x.2 ∧ x.1 = n + k := by
  intro n l
  induction l generalizing n with
  | nil => simp [enumFrom]
  | cons a as ih =>
    cases x with
    | mk i b =>
      simp only [enumFrom, List.mem_cons]
      constructor
      · rintro (h | h)
        · rw [Prod.mk.injEq] at h
          exact ⟨0, by simp [← h.2], by simp [h.1]⟩
        · obtain ⟨k, hk, hi⟩ := ih.mp h
          exact ⟨k + 1, by simpa using hk, by omega⟩
      · rintro ⟨k, hk, hi⟩
        cases k with
        | zero =>
          left
          simp at hk
          simp [hk, hi]
        | succ k =>
          right
          exact ih.mpr ⟨k, by simpa using hk, by omega⟩

theorem drop_eq_cons_of_get? {l : List α} {i : Nat} {a : α}
    (h : l.get? i = some a) : l.drop i = a :: l.drop (i + 1) := by
  induction l generalizing i with
  | nil => simp at h
  | cons b bs ih =>
    cases i with
    | zero => simp at h; simp [h]
    | succ i => simpa using ih (by simpa using h)

theorem takeWhile_all_append {p : Char → Bool} :
    ∀ (m rest : List Char), (∀ c ∈ m, p c = true) →
      (match rest.head? with
       | some d => p d = false
       | none => True) →
      (m ++ rest).takeWhile p = m ∧ (m ++ rest).dropWhile p = rest := by
  intro m rest hall hhd
  induction m with
  | nil =>
    simp only [List.nil_append]
    cases rest with
    | nil => simp
    | cons d ds => simp at hhd; simp [hhd]
  | cons c cs ih =>
    have hc : p c = true := hall c (by simp)
    have := ih (fun d hd => hall d (by simp [hd]))
    simp [List.cons_append, hc, this.1, this.2]

theorem dropWhile_all_append {p : Char → Bool} :
    ∀ (ws l : List Char), (∀ c ∈ ws, p c = true) →
      (ws ++ l).dropWhile p = l.dropWhile p := by
  intro ws l hall
  induction ws with
  | nil => simp
  | cons c cs ih =>
    have hc : p c = true := hall c (by simp)
    simp [hc, ih (fun d hd => hall d (by simp [hd]))]

/-! ## Byte-length and truncation lemmas -/

theorem length_le_utf8Len : ∀ l : List Char, l.length ≤ utf8Len l := by
  intro l
  induction l with
  | nil => simp [utf8Len]
  | cons c cs ih =>
    have := Char.utf8Size_pos c
    simp only [utf8Len, List.map_cons, List.sum_cons, List.length_cons]
    simp only [utf8Len] at ih
    omega

theorem takeBytes_length_le : ∀ (s : List Char) (n : Nat),
    (takeBytes s n).length ≤ n := by
  intro s
  induction s with
  | nil => intro n; simp [takeBytes]
  | cons c cs ih =>
    intro n
    by_cases h : n = 0
    · simp [takeBytes, h]
    · have := Char.utf8Size_pos c
      have := ih (n - c.utf8Size)
      simp only [takeBytes, if_neg h, List.length_cons]
      omega

theorem takeBytes_front : ∀ (s : List Char) (n : Nat), takeBytes s n <+: s := by
  intro s
  induction s with
  | nil => intro n; simp [takeBytes]
  | cons c cs ih =>
    intro n
    by_cases h : n = 0
    · simp [takeBytes, h]
    · simp only [takeBytes, if_neg h]
      exact List.cons_prefix_cons.mpr ⟨rfl, ih _⟩

theorem truncate_context_length_le (s : List Char) :
    (truncate_context s).length ≤ 503 := by
  unfold truncate_context
  split
  · calc s.length ≤ utf8Len s := length_le_utf8Len s
      _ ≤ 500 := by assumption
      _ ≤ 503 := by omega
  · have := takeBytes_length_le s MAX_CONTEXT_LEN
    simp only [List.length_append, List.length_cons, List.length_nil,
      MAX_CONTEXT_LEN] at *
    omega

theorem truncate_context_shape (s : List Char) :
    contextShapeOk (truncate_context s) s = true := by
  unfold truncate_context
  split
  · simp [contextShapeOk]
  · have hlen : (takeBytes s MAX_CONTEXT_LEN ++ ['.', '.', '.']).length =
        (takeBytes s MAX_CONTEXT_LEN).length + 3 := by simp
    have hb := takeBytes_length_le s MAX_CONTEXT_LEN
    unfold contextShapeOk
    rw [Bool.or_eq_true_iff]
    refine Or.inr ?_
    simp only [Bool.and_eq_true, decide_eq_true_eq]
    refine ⟨⟨⟨by omega, ?_⟩, ?_⟩, ?_⟩
    · rw [hlen, Nat.add_sub_cancel, List.drop_left]
      rfl
    · rw [hlen, Nat.add_sub_cancel, List.take_left]
      exact List.isPrefixOf_iff_prefix.mpr (takeBytes_front s _)
    · rw [hlen, Nat.add_sub_cancel]
      exact hb

/-! ## Membership plumbing for `extract_references` -/

theorem mem_extract_references {content : String} {syms : List ParsedSymbol}
    {r : ParsedRef} :
    r ∈ extract_references content syms ↔
      ∃ i line, (rustLines content.data).get? i = some line ∧
        r ∈ refLineBody (syms.map (fun s => s.name)) (i + 1) line := by
  unfold extract_references
  rw [mem_flatMapL]
  constructor
  · rintro ⟨⟨i, line⟩, hmem, hbody⟩
    obtain ⟨k, hk, hi⟩ := mem_enumFrom.mp hmem
    simp only at hk hbody
    refine ⟨k, line, hk, ?_⟩
    simpa [show i = k by omega] using hbody
  · rintro ⟨i, line, hline, hbody⟩
    exact ⟨(i, line), mem_enumFrom.mpr ⟨i, hline, by omega⟩, hbody⟩

theorem refLineBody_skip {d : List String} {ln : Nat} {line : List Char}
    (h : 2000 < utf8Len (trimChars line)) : refLineBody d ln line = [] := by
  simp [refLineBody, h]

theorem refLineBody_mem_elim {d : List String} {ln : Nat} {line : List Char}
    {r : ParsedRef} (h : r ∈ refLineBody d ln line) :
    r.line = ln ∧ r.context = String.mk (truncate_context (trimChars line)) ∧
      refKeywords.contains r.name = false ∧ d.contains r.name = false := by
  unfold refLineBody at h
  split at h
  · simp at h
  split at h
  · simp at h
  split at h
  · simp at h
  rcases List.mem_append.mp h with h' | h' <;>
    obtain ⟨n, hn, hf⟩ := List.mem_filterMap.mp h'
  · split at hf
    case isTrue hcond =>
      rw [Option.some.injEq] at hf
      subst hf
      simp only [Bool.and_eq_true, Bool.not_eq_true'] at hcond
      exact ⟨rfl, rfl, hcond.1, hcond.2⟩
    case isFalse => simp at hf
  · split at hf
    case isTrue hcond =>
      split at hf
      case isTrue =>
        rw [Option.some.injEq] at hf
        subst hf
        simp only [Bool.and_eq_true, Bool.not_eq_true'] at hcond
        exact ⟨rfl, rfl, hcond.1, hcond.2⟩
      case isFalse => simp at hf
    case isFalse => simp at hf

/-! ## Claim C1 — context truncation -/

set_option maxRecDepth 20000 in
/-- C1 (counterexample): for a 504-character ASCII line the single
extracted reference stores a context of 503 characters — more than the
500 the claim allows. -/
theorem C1_counterexample :
    (extract_references c1Input []).map (fun r => r.context.length) = [503] ∧
    ¬(503 ≤ 500) := by
  constructor
  · decide
  · omega

/-- C1 (amended): every reference produced by `extract_references`
stores a context of at most 503 characters which is either the ref's
own trimmed source line (the line its `line` number points at) or a
prefix of it of at most 500 characters followed by `"..."` (ending on a
character boundary by construction). -/
theorem C1_context_truncated (content : String) (syms : List ParsedSymbol)
    (r : ParsedRef) (h : r ∈ extract_references content syms) :
    r.context.length ≤ 503 ∧
    ∃ line, (rustLines content.data).get? (r.line - 1) = some line ∧
      contextShapeOk r.context.data (trimChars line) = true := by
  obtain ⟨i, line, hline, hbody⟩ := mem_extract_references.mp h
  obtain ⟨hrl, hctx, -⟩ := refLineBody_mem_elim hbody
  refine ⟨?_, line, ?_, ?_⟩
  · rw [hctx]
    exact truncate_context_length_le _
  · rw [hrl, Nat.add_sub_cancel]
    exact hline
  · rw [hctx]
    exact truncate_context_shape _
/-- Witness for `C1_context_truncated` at a concrete reference. -/
theorem C1_context_truncated_witness :
    ((⟨"Zebra", 1, "val x: Zebra = 1"⟩ : ParsedRef) ∈
        extract_references "val x: Zebra = 1" []) ∧
    ((⟨"Zebra", 1, "val x: Zebra = 1"⟩ : ParsedRef).context.length ≤ 503 ∧
      ∃ line, (rustLines ("val x: Zebra = 1").data).get?
          ((⟨"Zebra", 1, "val x: Zebra = 1"⟩ : ParsedRef).line - 1) =
            some line ∧
        contextShapeOk
          (⟨"Zebra", 1, "val x: Zebra = 1"⟩ : ParsedRef).context.data
          (trimChars line) = true) :=
  ⟨by decide, C1_context_truncated "val x: Zebra = 1" [] _ (by decide)⟩

/-! ## Claim C6 — keyword / local-name filtering -/

/-- C6: no reference is ever emitted whose name is in the keyword
denylist or among the names of the symbols of the same file, and on the
S4 input the references are exactly `OtherClass` twice at line 2 (and
`MyClass` never appears). -/
theorem C6_keyword_and_local_filter :
    (∀ (content : String) (syms : List ParsedSymbol) (r : ParsedRef),
        r ∈ extract_references content syms →
        refKeywords.contains r.name = false ∧
        (syms.map (fun s => s.name)).contains r.name = false) ∧
    (extract_references c6Input (parse_kotlin_symbols c6Input)).map
        (fun r => (r.name, r.line)) = [("OtherClass", 2), ("OtherClass", 2)] := by
  constructor
  · intro content syms r h
    obtain ⟨i, line, hline, hbody⟩ := mem_extract_references.mp h
    exact (refLineBody_mem_elim hbody).2.2
  · decide

/-- Witness for the universal part of `C6_keyword_and_local_filter`. -/
theorem C6_keyword_and_local_filter_witness :
    refKeywords.contains "OtherClass" = false ∧
    ((parse_kotlin_symbols c6Input).map (fun s => s.name)).contains
      "OtherClass" = false :=
  C6_keyword_and_local_filter.1 c6Input (parse_kotlin_symbols c6Input)
    ⟨"OtherClass", 2, "val other: OtherClass = OtherClass()"⟩ (by decide)

/-! ## Replicate-heavy evaluation lemmas

The overlong-line inputs of claim C8 are 2001 characters long, so their
behaviour is computed through rewriting lemmas on `List.replicate`
instead of one deep kernel evaluation. -/

theorem splitOnPred_no_sep {p : Char → Bool} :
    ∀ {l : List Char}, (∀ c ∈ l, p c = false) → splitOnPred p l = [l] := by
  intro l h
  induction l with
  | nil => rfl
  | cons c cs ih =>
    have hc : p c = false := h c (by simp)
    rw [splitOnPred, if_neg (by simp [hc]), ih (fun d hd => h d (by simp [hd]))]

theorem rustLines_single {l : List Char} (hne : l ≠ [])
    (hnl : ∀ c ∈ l, c ≠ '\n') (hcr : ∀ c, l.getLast? = some c → c ≠ '\r') :
    rustLines l = [l] := by
  unfold rustLines splitNl
  rw [splitOnPred_no_sep (fun c hc => by simp [hnl c hc])]
  rw [if_neg (by simp; intro h; exact hne h)]
  simp only [List.map_cons, List.map_nil, List.cons.injEq, and_true]
  unfold stripCr
  split
  case _ rest heq =>
    exact absurd rfl (hcr '\r' (by rw [← List.head?_reverse, heq]; rfl))
  case _ => rfl

theorem getLast?_replicate_succ (a : α) : ∀ n,
    (List.replicate (n + 1) a).getLast? = some a := by
  intro n
  induction n with
  | zero => rfl
  | succ n ih =>
    rw [List.replicate_succ, List.replicate_succ, List.getLast?_cons_cons,
      ← List.replicate_succ]
    exact ih

theorem dropWhile_replicate_neg {p : Char → Bool} {a : Char} (h : p a = false)
    (n : Nat) : (List.replicate n a).dropWhile p = List.replicate n a := by
  cases n with
  | zero => rfl
  | succ n =>
    rw [List.replicate_succ]
    exact List.dropWhile_cons_of_neg (by simp [h])

theorem trimChars_replicate_nonspace {a : Char} (h : isSpaceRx a = false)
    (n : Nat) : trimChars (List.replicate n a) = List.replicate n a := by
  unfold trimChars
  rw [dropWhile_replicate_neg h, List.reverse_replicate,
    dropWhile_replicate_neg h, List.reverse_replicate]

theorem scanUppersAux_space_cons (prev : Bool) (rest : List Char) :
    scanUppersAux prev (' ' :: rest) = scanUppersAux false rest := by
  cases prev <;> rfl

theorem scanUppersAux_spaces : ∀ (n : Nat) (rest : List Char),
    scanUppersAux false (List.replicate n ' ' ++ rest) =
      scanUppersAux false rest := by
  intro n
  induction n with
  | zero => simp
  | succ n ih =>
    intro rest
    rw [List.replicate_succ, List.cons_append, scanUppersAux_space_cons, ih]

theorem scanCallsAux_space_cons (prev : Bool) (rest : List Char) :
    scanCallsAux prev (' ' :: rest) = scanCallsAux false rest := by
  cases prev <;> rfl

theorem scanCallsAux_spaces : ∀ (n : Nat) (rest : List Char),
    scanCallsAux false (List.replicate n ' ' ++ rest) =
      scanCallsAux false rest := by
  intro n
  induction n with
  | zero => simp
  | succ n ih =>
    intro rest
    rw [List.replicate_succ, List.cons_append, scanCallsAux_space_cons, ih]

/-! ## Claim C8 — overlong lines -/

/-- The 2001-character line of `c8Input`. -/
def c8Line : List Char := List.replicate 1998 ' ' ++ "Abc".data

theorem c8Line_not_nl : ∀ c ∈ c8Line, c ≠ '\n' := by
  intro c hc
  rcases List.mem_append.mp hc with h | h
  · rw [List.eq_of_mem_replicate h]; decide
  · simp at h
    rcases h with rfl | rfl | rfl <;> decide

theorem c8_rustLines : rustLines c8Input.data = [c8Line] := by
  show rustLines c8Line = [c8Line]
  apply rustLines_single
  · intro h
    have := congrArg List.length h
    rw [c8Line, List.length_append, List.length_replicate] at this
    simp at this
  · exact c8Line_not_nl
  · intro c hc
    unfold c8Line at hc
    rw [List.getLast?_append,
      show ("Abc".data).getLast? = some 'c' from rfl] at hc
    rw [show (some 'c').or (List.replicate 1998 ' ').getLast? = some 'c' from rfl]
      at hc
    rw [Option.some.injEq] at hc
    rw [← hc]; decide

theorem c8_trim : trimChars c8Line = "Abc".data := by
  unfold trimChars c8Line
  rw [dropWhile_all_append _ _
    (fun c hc => by rw [List.eq_of_mem_replicate hc]; rfl)]
  decide

theorem c8_scanUppers : scanUppers c8Line = ["Abc".data] := by
  unfold scanUppers c8Line
  rw [scanUppersAux_spaces]
  decide

theorem c8_scanCalls : scanCalls c8Line = [] := by
  unfold scanCalls c8Line
  rw [scanCallsAux_spaces]
  decide

theorem c8_refs : extract_references c8Input [] =
    [⟨"Abc", 1, "Abc"⟩] := by
  unfold extract_references
  rw [c8_rustLines]
  show refLineBody [] 1 c8Line ++ [] = _
  unfold refLineBody
  simp only [c8_trim, c8_scanUppers, c8_scanCalls]
  decide

/-- C8 (counterexample): a line of 2001 characters (1998 spaces and
`Abc`) still yields a reference at its line number, because the length
check is applied to the trimmed line. -/
theorem C8_counterexample :
    (rustLines c8Input.data).map List.length = [2001] ∧
    (extract_references c8Input []).map (fun r => (r.name, r.line)) =
      [("Abc", 1)] := by
  constructor
  · rw [c8_rustLines, List.map_cons, List.map_nil, c8Line,
      List.length_append, List.length_replicate]
    rfl
  · rw [c8_refs]
    rfl

/-- C8 (amended): a line whose *trimmed* content exceeds 2000 bytes
(the code checks the trimmed line's UTF-8 byte length) produces no
reference with its line number. -/
theorem C8_trimmed_overlong_skipped (content : String) (syms : List ParsedSymbol)
    (i : Nat) (line : List Char)
    (hline : (rustLines content.data).get? i = some line)
    (hlong : 2000 < utf8Len (trimChars line)) :
    (extract_references content syms).filter (fun r => r.line == i + 1) = [] := by
  rw [List.filter_eq_nil_iff]
  intro r hr
  obtain ⟨j, line', hline', hbody⟩ := mem_extract_references.mp hr
  have hrl : r.line = j + 1 := (refLineBody_mem_elim hbody).1
  simp only [hrl, beq_iff_eq, Nat.add_right_cancel_iff]
  intro hji
  subst hji
  rw [hline] at hline'
  obtain rfl : line = line' := Option.some.inj hline'
  exact absurd hbody (by simp [refLineBody_skip hlong])

theorem c8w_lines :
    (rustLines (String.mk (List.replicate 2001 'A')).data).get? 0 =
      some (List.replicate 2001 'A') := by
  show (rustLines (List.replicate 2001 'A')).get? 0 = _
  rw [rustLines_single]
  · rfl
  · intro h
    have := congrArg List.length h
    rw [List.length_replicate] at this
    simp at this
  · intro c hc
    rw [List.eq_of_mem_replicate hc]
    decide
  · intro c hc
    rw [show (List.replicate 2001 'A').getLast? = some 'A' from
      getLast?_replicate_succ 'A' 2000, Option.some.injEq] at hc
    rw [← hc]
    decide

theorem c8w_len : 2000 < utf8Len (trimChars (List.replicate 2001 'A')) := by
  have h : 2000 < (trimChars (List.replicate 2001 'A')).length := by
    rw [trimChars_replicate_nonspace (by decide), List.length_replicate]
    omega
  exact lt_of_lt_of_le h (length_le_utf8Len _)

/-- Witness for `C8_trimmed_overlong_skipped` at a 2001-character
all-`A` line. -/
theorem C8_trimmed_overlong_skipped_witness :
    ((rustLines (String.mk (List.replicate 2001 'A')).data).get? 0 =
        some (List.replicate 2001 'A') ∧
      2000 < utf8Len (trimChars (List.replicate 2001 'A'))) ∧
    (extract_references (String.mk (List.replicate 2001 'A')) []).filter
      (fun r => r.line == 0 + 1) = [] :=
  ⟨⟨c8w_lines, c8w_len⟩,
   C8_trimmed_overlong_skipped _ [] 0 _ c8w_lines c8w_len⟩

/-! ## Character-class lemmas -/

theorem isUpper_of_isLower_false {c : Char} (h : c.isLower = true) :
    c.isUpper = false := by
  simp only [Char.isLower, Char.isUpper, UInt32.le_def, BitVec.le_def,
    Bool.and_eq_true, decide_eq_true_eq,
    show (UInt32.toBitVec 97).toNat = 97 from rfl,
    show (UInt32.toBitVec 122).toNat = 122 from rfl,
    show (UInt32.toBitVec 65).toNat = 65 from rfl,
    show (UInt32.toBitVec 90).toNat = 90 from rfl] at *
  simp only [Bool.and_eq_false_iff, decide_eq_false_iff_not, not_le]
  omega

theorem isAlnumCh_of_isLower {c : Char} (h : c.isLower = true) :
    isAlnumCh c = true := by
  simp [isAlnumCh, Char.isAlpha, h]

theorem isSpaceRx_eq_true_iff {c : Char} :
    isSpaceRx c = true ↔
      c = ' ' ∨ c = '\t' ∨ c = '\n' ∨ c = '\x0b' ∨ c = '\x0c' ∨ c = '\r' := by
  simp [isSpaceRx, or_assoc]

theorem isSpaceRx_of_isAlnumCh {c : Char} (h : isAlnumCh c = true) :
    isSpaceRx c = false := by
  cases hsp : isSpaceRx c with
  | false => rfl
  | true =>
    rcases isSpaceRx_eq_true_iff.mp hsp with rfl | rfl | rfl | rfl | rfl | rfl <;>
      exact absurd h (by decide)

theorem isSpaceRx_of_isWordCh {c : Char} (h : isWordCh c = true) :
    isSpaceRx c = false := by
  cases hsp : isSpaceRx c with
  | false => rfl
  | true =>
    rcases isSpaceRx_eq_true_iff.mp hsp with rfl | rfl | rfl | rfl | rfl | rfl <;>
      exact absurd h (by decide)

/-! ## The call-reference scanner agrees with the declarative match -/

theorem callMatchAt_nil {n : List Char} : ¬callMatchAt [] n := by
  rintro ⟨c, m, rest, hn, hs, -⟩
  subst hn
  simp at hs

theorem callMatchAt_cons_iff {c : Char} {cs n : List Char}
    (hlow : c.isLower = true) :
    callMatchAt (c :: cs) n ↔
      n = c :: cs.takeWhile isAlnumCh ∧
      ((cs.dropWhile isAlnumCh).dropWhile isSpaceRx).head? = some '(' := by
  constructor
  · rintro ⟨c', m, rest, hn, hs, hlow', hall, hpar⟩
    subst hn
    rw [List.cons_append, List.cons.injEq] at hs
    obtain ⟨rfl, hcs⟩ := hs
    have hrest : (match rest.head? with
        | some d => isAlnumCh d = false
        | none => True) := by
      cases rest with
      | nil => trivial
      | cons r t =>
        simp only [List.head?_cons]
        cases halnum : isAlnumCh r with
        | false => rfl
        | true =>
          rw [List.dropWhile_cons_of_neg
            (by simp [isSpaceRx_of_isAlnumCh halnum])] at hpar
          simp only [List.head?_cons, Option.some.injEq] at hpar
          subst hpar
          exact absurd halnum (by decide)
    obtain ⟨htake, hdrop⟩ := takeWhile_all_append m rest hall hrest
    rw [hcs, htake, hdrop]
    exact ⟨rfl, hpar⟩
  · rintro ⟨hn, hpar⟩
    refine ⟨c, cs.takeWhile isAlnumCh, cs.dropWhile isAlnumCh, hn, ?_, hlow,
      ?_, hpar⟩
    · rw [hn, List.cons_append, List.takeWhile_append_dropWhile]
    · intro d hd
      exact List.mem_takeWhile_imp hd

theorem scanCallsAux_cons_true (c : Char) (cs : List Char) :
    scanCallsAux true (c :: cs) = scanCallsAux (isWordCh c) cs := rfl

theorem scanCallsAux_cons_notLower {c : Char} (cs : List Char)
    (hc : c.isLower = false) :
    scanCallsAux false (c :: cs) = scanCallsAux (isWordCh c) cs := by
  simp [scanCallsAux, hc]

theorem scanCallsAux_cons_lower_pos {c : Char} {cs : List Char}
    (hc : c.isLower = true)
    (hcond : ((cs.dropWhile isAlnumCh).dropWhile isSpaceRx).head? = some '(') :
    scanCallsAux false (c :: cs) =
      (c :: cs.takeWhile isAlnumCh) :: scanCallsAux (isWordCh c) cs := by
  simp [scanCallsAux, hc, hcond]

theorem scanCallsAux_cons_lower_neg {c : Char} {cs : List Char}
    (hc : c.isLower = true)
    (hcond : ((cs.dropWhile isAlnumCh).dropWhile isSpaceRx).head? ≠ some '(') :
    scanCallsAux false (c :: cs) = scanCallsAux (isWordCh c) cs := by
  simp [scanCallsAux, hc, hcond]

theorem mem_scanCallsAux : ∀ (l : List Char) (prev : Bool) (n : List Char),
    n ∈ scanCallsAux prev l ↔
      ∃ i, ((i = 0 ∧ prev = false) ∨
            (1 ≤ i ∧ ∃ c, l.get? (i - 1) = some c ∧ isWordCh c = false)) ∧
        callMatchAt (l.drop i) n := by
  intro l
  induction l with
  | nil =>
    intro prev n
    constructor
    · intro h
      simp [scanCallsAux] at h
    · rintro ⟨i, -, h⟩
      rw [List.drop_nil] at h
      exact absurd h callMatchAt_nil
  | cons c cs ih =>
    intro prev n
    have key : (∃ i, ((i = 0 ∧ prev = false) ∨
          (1 ≤ i ∧ ∃ d, (c :: cs).get? (i - 1) = some d ∧ isWordCh d = false)) ∧
          callMatchAt ((c :: cs).drop i) n) ↔
        ((prev = false ∧ callMatchAt (c :: cs) n) ∨
          (∃ j, ((j = 0 ∧ isWordCh c = false) ∨
            (1 ≤ j ∧ ∃ d, cs.get? (j - 1) = some d ∧ isWordCh d = false)) ∧
            callMatchAt (cs.drop j) n)) := by
      constructor
      · rintro ⟨i, hB, hM⟩
        cases i with
        | zero =>
          rcases hB with ⟨-, hp⟩ | ⟨h1, -⟩
          · exact Or.inl ⟨hp, by simpa using hM⟩
          · omega
        | succ j =>
          rcases hB with ⟨hj, -⟩ | ⟨-, d, hd, hw⟩
          · omega
          · refine Or.inr ⟨j, ?_, by simpa [List.drop_succ_cons] using hM⟩
            cases j with
            | zero =>
              left
              simp only [Nat.add_sub_cancel, List.get?_cons_zero,
                Option.some.injEq] at hd
              exact ⟨rfl, hd ▸ hw⟩
            | succ k =>
              right
              refine ⟨by omega, d, ?_, hw⟩
              simpa using hd
      · rintro (⟨hp, hM⟩ | ⟨j, hB, hM⟩)
        · exact ⟨0, Or.inl ⟨rfl, hp⟩, by simpa using hM⟩
        · refine ⟨j + 1, ?_, by simpa [List.drop_succ_cons] using hM⟩
          right
          rcases hB with ⟨rfl, hw⟩ | ⟨h1, d, hd, hw⟩
          · exact ⟨by omega, c, rfl, hw⟩
          · refine ⟨by omega, d, ?_, hw⟩
            cases j with
            | zero => omega
            | succ k => simpa using hd
    rw [key]
    cases prev with
    | true =>
      rw [scanCallsAux_cons_true, ih]
      constructor
      · intro h
        exact Or.inr h
      · rintro (⟨hp, -⟩ | h)
        · exact absurd hp (by simp)
        · exact h
    | false =>
      cases hl : c.isLower with
      | false =>
        rw [scanCallsAux_cons_notLower cs hl, ih]
        constructor
        · intro h
          exact Or.inr h
        · rintro (⟨-, hM⟩ | h)
          · obtain ⟨c', m, rest, hn, hs, hlow', -⟩ := hM
            rw [hn, List.cons_append, List.cons.injEq] at hs
            rw [← hs.1] at hlow'
            exact absurd hlow' (by simp [hl])
          · exact h
      | true =>
        by_cases hcond :
            ((cs.dropWhile isAlnumCh).dropWhile isSpaceRx).head? = some '('
        · rw [scanCallsAux_cons_lower_pos hl hcond, List.mem_cons, ih]
          constructor
          · rintro (rfl | h)
            · exact Or.inl ⟨rfl, (callMatchAt_cons_iff hl).mpr ⟨rfl, hcond⟩⟩
            · exact Or.inr h
          · rintro (⟨-, hM⟩ | h)
            · exact Or.inl ((callMatchAt_cons_iff hl).mp hM).1
            · exact Or.inr h
        · rw [scanCallsAux_cons_lower_neg hl hcond, ih]
          constructor
          · intro h
            exact Or.inr h
          · rintro (⟨-, hM⟩ | h)
            · exact absurd ((callMatchAt_cons_iff hl).mp hM).2 hcond
            · exact h

theorem mem_scanCalls {l n : List Char} :
    n ∈ scanCalls l ↔ callCandidate l n := by
  unfold scanCalls callCandidate
  rw [mem_scanCallsAux]
  constructor
  · rintro ⟨i, hB, hM⟩
    refine ⟨i, ?_, hM⟩
    rcases hB with ⟨rfl, -⟩ | ⟨-, d, hd, hw⟩
    · exact Or.inl rfl
    · exact Or.inr ⟨d, hd, hw⟩
  · rintro ⟨i, hB, hM⟩
    refine ⟨i, ?_, hM⟩
    rcases hB with rfl | ⟨d, hd, hw⟩
    · exact Or.inl ⟨rfl, rfl⟩
    · cases i with
      | zero => exact Or.inl ⟨rfl, rfl⟩
      | succ k => exact Or.inr ⟨by omega, d, hd, hw⟩

theorem scanUppersAux_head_upper : ∀ (l : List Char) (prev : Bool)
    (n : List Char), n ∈ scanUppersAux prev l →
    ∃ c m, n = c :: m ∧ c.isUpper = true := by
  intro l
  induction l with
  | nil => intro prev n h; simp [scanUppersAux] at h
  | cons c cs ih =>
    intro prev n h
    cases prev with
    | true => exact ih _ _ h
    | false =>
      cases hu : c.isUpper with
      | false =>
        have he : scanUppersAux false (c :: cs) = scanUppersAux (isWordCh c) cs := by
          simp [scanUppersAux, hu]
        exact ih _ _ (he ▸ h)
      | true =>
        cases hh : (List.dropWhile isAlnumCh cs).head? with
        | none =>
          have he : scanUppersAux false (c :: cs) =
              (c :: cs.takeWhile isAlnumCh) :: scanUppersAux (isWordCh c) cs := by
            simp [scanUppersAux, hu, hh]
          rw [he] at h
          rcases List.mem_cons.mp h with rfl | h'
          · exact ⟨c, _, rfl, hu⟩
          · exact ih _ _ h'
        | some d =>
          cases hw : isWordCh d with
          | true =>
            have he : scanUppersAux false (c :: cs) =
                scanUppersAux (isWordCh c) cs := by
              simp [scanUppersAux, hu, hh, hw]
            exact ih _ _ (he ▸ h)
          | false =>
            have he : scanUppersAux false (c :: cs) =
                (c :: cs.takeWhile isAlnumCh) :: scanUppersAux (isWordCh c) cs := by
              simp [scanUppersAux, hu, hh, hw]
            rw [he] at h
            rcases List.mem_cons.mp h with rfl | h'
            · exact ⟨c, _, rfl, hu⟩
            · exact ih _ _ h'

/-! ## Claim C7 — call references -/

/-- C7 (counterexample): `foobar (1)` — the identifier is separated from
the parenthesis by a space, yet a call reference is emitted, because
`FUNC_CALL_RE` contains `\s*` before the `(`. -/
theorem C7_counterexample :
    (extract_references c7Input []).map (fun r => (r.name, r.line)) =
      [("foobar", 1)] := by
  decide

/-- C7 (amended): a lowercase-initial identifier is emitted as a call
reference iff, on a line that is scanned at all (not overlong, not an
import/package line, not a comment), it stands at a word boundary and is
followed — possibly after whitespace — by `(`, its length exceeds 2, and
it is neither a keyword nor a locally defined symbol name. -/
theorem C7_call_reference_iff (content : String) (syms : List ParsedSymbol)
    (name : String) (ln : Nat)
    (hlower : ∃ c m, name.data = c :: m ∧ c.isLower = true) :
    (∃ ctx, (⟨name, ln, ctx⟩ : ParsedRef) ∈ extract_references content syms) ↔
    (∃ i line, (rustLines content.data).get? i = some line ∧ ln = i + 1 ∧
      utf8Len (trimChars line) ≤ 2000 ∧
      startsWithLit "import ".data (trimChars line) = false ∧
      startsWithLit "package ".data (trimChars line) = false ∧
      startsWithLit "//".data (trimChars line) = false ∧
      startsWithLit "/*".data (trimChars line) = false ∧
      startsWithLit "*".data (trimChars line) = false ∧
      callCandidate line name.data ∧
      2 < name.length ∧
      refKeywords.contains name = false ∧
      (syms.map (fun s => s.name)).contains name = false) := by
  constructor
  · rintro ⟨ctx, hmem⟩
    obtain ⟨i, line, hline, hbody⟩ := mem_extract_references.mp hmem
    refine ⟨i, line, hline, ?_⟩
    unfold refLineBody at hbody
    split at hbody
    · simp at hbody
    next h1 =>
      split at hbody
      · simp at hbody
      next h2 =>
        split at hbody
        · simp at hbody
        next h3 =>
          simp only [Bool.or_eq_true, not_or, Bool.not_eq_true] at h2 h3
          rcases List.mem_append.mp hbody with hb | hb
          · exfalso
            obtain ⟨n, hn, hf⟩ := List.mem_filterMap.mp hb
            split at hf
            · rw [Option.some.injEq] at hf
              have hname : String.mk n = name := congrArg ParsedRef.name hf
              obtain ⟨cu, mu, hnu, hu⟩ := scanUppersAux_head_upper line false n hn
              obtain ⟨cl, ml, hnl, hlow⟩ := hlower
              rw [← hname] at hnl
              have : cu = cl := by
                rw [hnu] at hnl
                exact (List.cons.injEq .. ▸ hnl).1
              rw [this] at hu
              exact absurd hu (by simp [isUpper_of_isLower_false hlow])
            · simp at hf
          · obtain ⟨n, hn, hf⟩ := List.mem_filterMap.mp hb
            split at hf
            next hcond =>
              split at hf
              next hlen =>
                rw [Option.some.injEq] at hf
                have hname : String.mk n = name := congrArg ParsedRef.name hf
                have hln : i + 1 = ln := congrArg ParsedRef.line hf
                have hdata : n = name.data := by rw [← hname]
                simp only [Bool.and_eq_true, Bool.not_eq_true'] at hcond
                refine ⟨hln.symm, by omega, h2.1, h2.2, h3.1.1, h3.1.2, h3.2,
                  ?_, ?_, ?_, ?_⟩
                · exact mem_scanCalls.mp (hdata ▸ hn)
                · rw [← hname]; exact hlen
                · rw [← hname]; exact hcond.1
                · rw [← hname]; exact hcond.2
              next => simp at hf
            next => simp at hf
  · rintro ⟨i, line, hline, rfl, hlen2000, him, hpk, hs1, hs2, hs3, hcand,
      hnlen, hkw, hdef⟩
    refine ⟨String.mk (truncate_context (trimChars line)),
      mem_extract_references.mpr ⟨i, line, hline, ?_⟩⟩
    unfold refLineBody
    rw [if_neg (by omega), if_neg (by simp [him, hpk]),
      if_neg (by simp [hs1, hs2, hs3])]
    refine List.mem_append.mpr (Or.inr ?_)
    refine List.mem_filterMap.mpr ⟨name.data, mem_scanCalls.mpr hcand, ?_⟩
    have hmk : String.mk name.data = name := rfl
    rw [hmk, hkw, hdef]
    simp [hnlen]

/-- Witness for `C7_call_reference_iff`, constructing the `foobar (1)`
reference through the amended characterisation. -/
theorem C7_call_reference_iff_witness :
    (∃ c m, ("foobar" : String).data = c :: m ∧ c.isLower = true) ∧
    (∃ ctx, (⟨"foobar", 1, ctx⟩ : ParsedRef) ∈ extract_references c7Input []) :=
  ⟨⟨'f', "oobar".data, rfl, rfl⟩,
   (C7_call_reference_iff c7Input [] "foobar" 1 ⟨'f', "oobar".data, rfl, rfl⟩).mpr
     ⟨0, "foobar (1)".data, by decide, rfl, by decide, by decide, by decide,
      by decide, by decide, by decide,
      ⟨0, Or.inl rfl,
       ⟨'f', "oobar".data, " (1)".data, by decide, by decide, rfl, by decide,
        by decide⟩⟩,
      by decide, by decide, by decide⟩⟩

/-! ## Claim C2 — unused-symbol analysis -/

theorem unused_loop_eq (db : IndexDb) (limit : Nat) :
    ∀ (l : List SymRow) (cnt : Nat),
      unused_loop db limit l cnt =
        (l.filter (fun s => !referencedInDb db s.name)).take
          (max 1 (limit - cnt)) := by
  intro l
  induction l with
  | nil => intro cnt; simp [unused_loop]
  | cons s rest ih =>
    intro cnt
    cases href : referencedInDb db s.name with
    | true =>
      rw [unused_loop, if_pos href, ih cnt, List.filter_cons_of_neg
        (by simp [href])]
    | false =>
      rw [unused_loop, if_neg (by simp [href]), List.filter_cons_of_pos
        (by simp [href])]
      by_cases hlim : cnt + 1 ≥ limit
      · rw [if_pos hlim]
        have hmax : max 1 (limit - cnt) = 1 := by omega
        rw [hmax]
        rfl
      · rw [if_neg hlim, ih (cnt + 1)]
        have hmax : max 1 (limit - cnt) = (max 1 (limit - (cnt + 1))) + 1 := by
          omega
        rw [hmax, List.take_succ_cons]

/-- C2 (counterexample): with `limit = 0` and two unreferenced
candidates the loop still reports one symbol (the break test
`unused.len() >= limit` runs after the push), so more than `limit`
symbols are reported and the second unreferenced candidate is not
reported despite having no usage rows. -/
theorem C2_counterexample :
    (cmd_unused_symbols c2Db 0).map (fun s => s.name) = ["OrphanA"] ∧
    ¬((cmd_unused_symbols c2Db 0).length ≤ 0) ∧
    referencedInDb c2Db "OrphanB" = false ∧
    (cmd_unused_symbols c2Db 0).all (fun s => !(s.name == "OrphanB")) = true := by
  refine ⟨by decide, by decide, by decide, by decide⟩

/-- C2 (amended): the reported rows are exactly the first
`max 1 limit` elements of the `(path, line)`-ordered candidate rows
that have no row in any of `refs`, `xml_usages` and
`storyboard_usages`; in particular, for `limit ≥ 1` the "iff with at
most `limit` reported" reading of the claim holds. -/
theorem C2_unused_report (db : IndexDb) (limit : Nat) :
    cmd_unused_symbols db limit =
      ((candidateRows db).filter (fun s => !referencedInDb db s.name)).take
        (max 1 limit) := by
  unfold cmd_unused_symbols
  rw [unused_loop_eq]
  simp

/-! ## Claim C9 — watch-loop termination -/

theorem watch_loop_some : ∀ {msgs : List WatchMsg} {r : Except String Unit},
    watch_loop msgs = some r → r = Except.ok () ∧ WatchMsg.chanErr ∈ msgs := by
  intro msgs
  induction msgs with
  | nil => intro r h; simp [watch_loop] at h
  | cons m rest ih =>
    intro r h
    cases m with
    | chanErr =>
      refine ⟨(Option.some.inj h).symm, by simp⟩
    | batch rel upd =>
      obtain ⟨hr, hm⟩ := ih h
      exact ⟨hr, List.mem_cons.mpr (Or.inr hm)⟩
    | watchErr =>
      obtain ⟨hr, hm⟩ := ih h
      exact ⟨hr, List.mem_cons.mpr (Or.inr hm)⟩

/-- C9 (counterexample): when the receive loop ends because of a channel
error, `cmd_watch` returns success (`Ok(())`), not an error — the
`Err(_)` arm merely prints and `break`s, and the function then returns
`Ok(())`. -/
theorem C9_counterexample :
    cmd_watch true (Except.ok ()) [WatchMsg.chanErr] =
      some (Except.ok ()) := rfl

/-- C9 (amended): whenever the watch loop terminates it does so because
of a channel error and the result is success; a non-`Ok` result of
`cmd_watch` can only come from a setup failure before the loop. -/
theorem C9_watch_exit (msgs : List WatchMsg) (r : Except String Unit)
    (dbExists : Bool) (setup : Except String Unit) (e : String)
    (hloop : watch_loop msgs = some r)
    (herr : cmd_watch dbExists setup msgs = some (Except.error e)) :
    (r = Except.ok () ∧ WatchMsg.chanErr ∈ msgs) ∧
    setup = Except.error e := by
  refine ⟨watch_loop_some hloop, ?_⟩
  unfold cmd_watch at herr
  split at herr
  · simp at herr
  · split at herr
    next e' =>
      rw [Option.some.injEq, Except.error.injEq] at herr
      rw [herr]
    next =>
      obtain ⟨hr, -⟩ := watch_loop_some herr
      simp at hr

/-- Witness for `C9_watch_exit`: a loop ending in a channel error after
a failed setup. -/
theorem C9_watch_exit_witness :
    (watch_loop [WatchMsg.chanErr] = some (Except.ok ()) ∧
      cmd_watch true (Except.error "boom") [WatchMsg.chanErr] =
        some (Except.error "boom")) ∧
    ((Except.ok () = (Except.ok () : Except String Unit) ∧
        WatchMsg.chanErr ∈ [WatchMsg.chanErr]) ∧
      (Except.error "boom" : Except String Unit) = Except.error "boom") :=
  ⟨⟨rfl, rfl⟩,
   C9_watch_exit [WatchMsg.chanErr] (Except.ok ()) true (Except.error "boom")
     "boom" rfl rfl⟩

/-! ## Claim C3 — Kotlin class with inheritance (scenario S1) -/

/-- C3: the S1 input yields exactly one symbol: `MyFragment`, kind
Class, line 1, with `Fragment` as `extends` (written with `()`) and
`Serializable` as `implements` (bare name). -/
theorem C3_kotlin_inheritance :
    parse_kotlin_symbols c3Input =
      [⟨"MyFragment", SymbolKind.Class, 1,
        "class MyFragment(arg: String) : Fragment(), Serializable \x7b \x7d",
        [("Fragment", "extends"), ("Serializable", "implements")]⟩] := by
  decide

/-! ## Claim C5 — Perl package with ISA inheritance (scenario S3) -/

/-- C5: the S3 input yields exactly one symbol: package `Derived` with
parents `Base1` and `Base2` as `extends`; in particular no Property
named `@ISA` is produced. -/
theorem C5_perl_isa :
    parse_perl_symbols c5Input =
      [⟨"Derived", SymbolKind.Package, 1, "package Derived;",
        [("Base1", "extends"), ("Base2", "extends")]⟩] := by
  decide

/-! ## Claim C4 — Objective-C implementation deduplication -/

theorem stripLit_eq_append : ∀ {p s r : List Char},
    stripLit p s = some r → s = p ++ r := by
  intro p
  induction p with
  | nil => intro s r h; simp [stripLit] at h; simp [h]
  | cons c cs ih =>
    intro s r h
    cases s with
    | nil => simp [stripLit] at h
    | cons d ds =>
      rw [stripLit] at h
      split at h
      · next heq => rw [List.cons_append, heq, ih h]
      · simp at h

theorem objc_process_line_of_impl {line n : List Char}
    (h : objc_impl_match line = some n) (acc : List ParsedSymbol) (ln : Nat) :
    objc_process_line acc ln line =
      if acc.any (fun s => s.name == String.mk n && s.kind == SymbolKind.Class)
      then acc
      else acc ++
        [⟨String.mk n, SymbolKind.Class, ln, String.mk (trimChars line), []⟩] := by
  have hsome : ∃ r,
      stripLit "@implementation".data (line.dropWhile isSpaceRx) = some r := by
    unfold objc_impl_match at h
    cases heq : stripLit "@implementation".data (line.dropWhile isSpaceRx) with
    | none => rw [heq] at h; simp at h
    | some r => exact ⟨r, rfl⟩
  obtain ⟨r, heq⟩ := hsome
  have hs := stripLit_eq_append heq
  have hint : objc_interface_match line = none := by
    unfold objc_interface_match
    rw [hs]
    rfl
  have hprot : objc_protocol_match line = none := by
    unfold objc_protocol_match
    rw [hs]
    rfl
  have hmeth : objc_method_match line = none := by
    unfold objc_method_match
    rw [hs]
    rfl
  have hprop : objc_property_match line = none := by
    unfold objc_property_match
    rw [hs]
    rfl
  have htyp : objc_typedef_match line = none := by
    unfold objc_typedef_match
    rw [hs]
    rfl
  simp only [objc_process_line, objcInterfaceStep, objcProtocolStep,
    objcImplStep, objcMethodStep, objcPropertyStep, objcTypedefStep,
    hint, hprot, h, hmeth, hprop, htyp]

theorem mem_objcInterfaceStep {s : ParsedSymbol} {acc ln line}
    (h : s ∈ objcInterfaceStep ln line acc) : s ∈ acc ∨ s.line = ln := by
  unfold objcInterfaceStep at h
  split at h
  · split at h <;>
      (rcases List.mem_append.mp h with h' | h'
       · exact Or.inl h'
       · simp at h'
         exact Or.inr (by rw [h']))
  · exact Or.inl h

theorem mem_objcProtocolStep {s : ParsedSymbol} {acc ln line}
    (h : s ∈ objcProtocolStep ln line acc) : s ∈ acc ∨ s.line = ln := by
  unfold objcProtocolStep at h
  split at h
  · rcases List.mem_append.mp h with h' | h'
    · exact Or.inl h'
    · simp at h'
      exact Or.inr (by rw [h'])
  · exact Or.inl h

theorem mem_objcImplStep {s : ParsedSymbol} {acc ln line}
    (h : s ∈ objcImplStep ln line acc) : s ∈ acc ∨ s.line = ln := by
  unfold objcImplStep at h
  split at h
  · split at h
    · exact Or.inl h
    · rcases List.mem_append.mp h with h' | h'
      · exact Or.inl h'
      · simp at h'
        exact Or.inr (by rw [h'])
  · exact Or.inl h

theorem mem_objcMethodStep {s : ParsedSymbol} {acc ln line}
    (h : s ∈ objcMethodStep ln line acc) : s ∈ acc ∨ s.line = ln := by
  unfold objcMethodStep at h
  split at h
  · rcases List.mem_append.mp h with h' | h'
    · exact Or.inl h'
    · simp at h'
      exact Or.inr (by rw [h'])
  · exact Or.inl h

theorem mem_objcPropertyStep {s : ParsedSymbol} {acc ln line}
    (h : s ∈ objcPropertyStep ln line acc) : s ∈ acc ∨ s.line = ln := by
  unfold objcPropertyStep at h
  split at h
  · rcases List.mem_append.mp h with h' | h'
    · exact Or.inl h'
    · simp at h'
      exact Or.inr (by rw [h'])
  · exact Or.inl h

theorem mem_objcTypedefStep {s : ParsedSymbol} {acc ln line}
    (h : s ∈ objcTypedefStep ln line acc) : s ∈ acc ∨ s.line = ln := by
  unfold objcTypedefStep at h
  split at h
  · split at h
    · rcases List.mem_append.mp h with h' | h'
      · exact Or.inl h'
      · simp at h'
        exact Or.inr (by rw [h'])
    · exact Or.inl h
  · exact Or.inl h

theorem mem_objc_process_line {s : ParsedSymbol} {acc ln line}
    (h : s ∈ objc_process_line acc ln line) : s ∈ acc ∨ s.line = ln := by
  unfold objc_process_line at h
  rcases mem_objcTypedefStep h with h | h
  · rcases mem_objcPropertyStep h with h | h
    · rcases mem_objcMethodStep h with h | h
      · rcases mem_objcImplStep h with h | h
        · rcases mem_objcProtocolStep h with h | h
          · rcases mem_objcInterfaceStep h with h | h
            · exact Or.inl h
            · exact Or.inr h
          · exact Or.inr h
        · exact Or.inr h
      · exact Or.inr h
    · exact Or.inr h
  · exact Or.inr h

theorem subset_objcInterfaceStep {s : ParsedSymbol} {acc ln line}
    (h : s ∈ acc) : s ∈ objcInterfaceStep ln line acc := by
  unfold objcInterfaceStep
  split
  · split <;> exact List.mem_append_left _ h
  · exact h

theorem subset_objcProtocolStep {s : ParsedSymbol} {acc ln line}
    (h : s ∈ acc) : s ∈ objcProtocolStep ln line acc := by
  unfold objcProtocolStep
  split
  · exact List.mem_append_left _ h
  · exact h

theorem subset_objcImplStep {s : ParsedSymbol} {acc ln line}
    (h : s ∈ acc) : s ∈ objcImplStep ln line acc := by
  unfold objcImplStep
  split
  · split
    · exact h
    · exact List.mem_append_left _ h
  · exact h

theorem subset_objcMethodStep {s : ParsedSymbol} {acc ln line}
    (h : s ∈ acc) : s ∈ objcMethodStep ln line acc := by
  unfold objcMethodStep
  split
  · exact List.mem_append_left _ h
  · exact h

theorem subset_objcPropertyStep {s : ParsedSymbol} {acc ln line}
    (h : s ∈ acc) : s ∈ objcPropertyStep ln line acc := by
  unfold objcPropertyStep
  split
  · exact List.mem_append_left _ h
  · exact h

theorem subset_objcTypedefStep {s : ParsedSymbol} {acc ln line}
    (h : s ∈ acc) : s ∈ objcTypedefStep ln line acc := by
  unfold objcTypedefStep
  split
  · split
    · exact List.mem_append_left _ h
    · exact h
  · exact h

theorem subset_objc_process_line {s : ParsedSymbol} {acc ln line}
    (h : s ∈ acc) : s ∈ objc_process_line acc ln line := by
  unfold objc_process_line
  exact subset_objcTypedefStep (subset_objcPropertyStep (subset_objcMethodStep
    (subset_objcImplStep (subset_objcProtocolStep
      (subset_objcInterfaceStep h)))))

theorem mem_parse_objc_go_decomp : ∀ (ls : List (List Char)) (n : Nat)
    (acc : List ParsedSymbol) (s : ParsedSymbol),
    s ∈ parse_objc_go n ls acc →
    s ∈ acc ∨ (n ≤ s.line ∧ s.line < n + ls.length) := by
  intro ls
  induction ls with
  | nil => intro n acc s h; exact Or.inl h
  | cons l rest ih =>
    intro n acc s h
    rcases ih (n + 1) _ s h with h' | ⟨h1, h2⟩
    · rcases mem_objc_process_line h' with h'' | h''
      · exact Or.inl h''
      · refine Or.inr ⟨by omega, ?_⟩
        simp only [List.length_cons]
        omega
    · refine Or.inr ⟨by omega, ?_⟩
      simp only [List.length_cons] at *
      omega

theorem subset_parse_objc_go : ∀ (ls : List (List Char)) (n : Nat)
    (acc : List ParsedSymbol) (s : ParsedSymbol),
    s ∈ acc → s ∈ parse_objc_go n ls acc := by
  intro ls
  induction ls with
  | nil => intro n acc s h; exact h
  | cons l rest ih =>
    intro n acc s h
    exact ih (n + 1) _ s (subset_objc_process_line h)

theorem parse_objc_go_append : ∀ (ls₁ ls₂ : List (List Char)) (n : Nat)
    (acc : List ParsedSymbol),
    parse_objc_go n (ls₁ ++ ls₂) acc =
      parse_objc_go (n + ls₁.length) ls₂ (parse_objc_go n ls₁ acc) := by
  intro ls₁
  induction ls₁ with
  | nil => intro ls₂ n acc; simp [parse_objc_go]
  | cons l rest ih =>
    intro ls₂ n acc
    rw [List.cons_append, parse_objc_go, parse_objc_go, ih,
      show n + (l :: rest).length = (n + 1) + rest.length by simp; omega]

/-- C4 (counterexample): with the `@implementation` before the
`@interface`, both lines produce a Class symbol — the dedup only looks
at already-emitted symbols, so two Class symbols named `Foo` result. -/
theorem C4_counterexample :
    ((parse_objc_symbols c4Input).filter
      (fun s => s.name == "Foo" && s.kind == SymbolKind.Class)).length = 2 ∧
    ((parse_objc_symbols c4InputOrdered).filter
      (fun s => s.name == "Foo" && s.kind == SymbolKind.Class)).length = 1 := by
  constructor <;> decide

/-- C4 (amended): an `@implementation Name` line produces a Class symbol
iff the symbols emitted from the *earlier* lines contain no Class named
`Name` (whether they came from `@interface` or from another
`@implementation`); document order decides, so a header after its
implementation duplicates. -/
theorem C4_impl_dedup (content : String) (i : Nat) (line : List Char)
    (n : List Char)
    (hline : (rustLines content.data).get? i = some line)
    (himpl : objc_impl_match line = some n) :
    ((parse_objc_symbols content).any
        (fun s => s.name == String.mk n && s.kind == SymbolKind.Class &&
          s.line == i + 1)) =
      !((parse_objc_lines ((rustLines content.data).take i)).any
        (fun s => s.name == String.mk n && s.kind == SymbolKind.Class)) := by
  have hilen : i < (rustLines content.data).length := by
    obtain ⟨h, -⟩ := List.get?_eq_some.mp hline
    exact h
  have hsplit : rustLines content.data =
      (rustLines content.data).take i ++
        (line :: (rustLines content.data).drop (i + 1)) := by
    conv_lhs => rw [← List.take_append_drop i (rustLines content.data)]
    rw [drop_eq_cons_of_get? hline]
  have htl : ((rustLines content.data).take i).length = i := by
    rw [List.length_take]
    omega
  have hgo : parse_objc_symbols content =
      parse_objc_go (i + 2) ((rustLines content.data).drop (i + 1))
        (objc_process_line
          (parse_objc_lines ((rustLines content.data).take i)) (i + 1) line) := by
    unfold parse_objc_symbols parse_objc_lines
    conv_lhs => rw [hsplit]
    rw [parse_objc_go_append, htl, parse_objc_go]
    rw [show 1 + i = i + 1 by omega]
  rw [hgo, objc_process_line_of_impl himpl]
  cases hb : (parse_objc_lines ((rustLines content.data).take i)).any
      (fun s => s.name == String.mk n && s.kind == SymbolKind.Class) with
  | true =>
    rw [if_pos rfl, Bool.not_true]
    rw [List.any_eq_false]
    intro s hs
    have hnot : s.line ≠ i + 1 := by
      rcases mem_parse_objc_go_decomp _ _ _ _ hs with h' | ⟨h1, -⟩
      · rcases mem_parse_objc_go_decomp _ _ _ _ h' with h'' | ⟨-, h2⟩
        · simp at h''
        · rw [htl] at h2
          omega
      · omega
    simp [hnot]
  | false =>
    rw [if_neg (by simp), Bool.not_false]
    rw [List.any_eq_true]
    refine ⟨⟨String.mk n, SymbolKind.Class, i + 1, String.mk (trimChars line), []⟩,
      subset_parse_objc_go _ _ _ _ (List.mem_append_right _ (by simp)),
      by simp; rfl⟩

/-- Witness for `C4_impl_dedup` on the interface-first file: the
`@implementation` line (index 1) produces no Class symbol because line 0
already emitted one. -/
theorem C4_impl_dedup_witness :
    ((rustLines c4InputOrdered.data).get? 1 = some "@implementation Foo".data ∧
      objc_impl_match "@implementation Foo".data = some "Foo".data) ∧
    ((parse_objc_symbols c4InputOrdered).any
        (fun s => s.name == String.mk "Foo".data && s.kind == SymbolKind.Class &&
          s.line == 1 + 1)) =
      !((parse_objc_lines ((rustLines c4InputOrdered.data).take 1)).any
        (fun s => s.name == String.mk "Foo".data &&
          s.kind == SymbolKind.Class)) :=
  ⟨⟨by decide, by decide⟩,
   C4_impl_dedup c4InputOrdered 1 "@implementation Foo".data "Foo".data
     (by decide) (by decide)⟩

/-! ## C10: `enum class` declarations -/

/-- On input `enum class …` the starred modifier group of
`CLASS_START_RE` consumes the `enum` modifier and its trailing
whitespace, leaving the scan at `class …`. -/
theorem modsLoopF_enum_class (f : Nat) (Y : List Char) :
    modsLoopF kotlinClassMods (f + 1) ("enum class ".data ++ Y) =
      "class ".data ++ Y := by
  cases f <;> rfl

/-- The four-modifier group of `ENUM_RE` consumes nothing on input
`enum class …`. -/
theorem modsLoopF_enum4 (f : Nat) (Y : List Char) :
    modsLoopF ["public".data, "private".data, "protected".data,
        "internal".data] (f + 1) ("enum class ".data ++ Y) =
      "enum class ".data ++ Y := rfl

theorem length_enum_class (X : List Char) :
    ("enum class ".data ++ X).length = X.length + 10 + 1 := by
  rw [List.length_append]
  show 11 + X.length = X.length + 10 + 1
  omega

theorem dropWhile_enum_class (ws X : List Char)
    (hws : ∀ c ∈ ws, isSpaceRx c = true) :
    (ws ++ ("enum class ".data ++ X)).dropWhile isSpaceRx =
      "enum class ".data ++ X := by
  rw [dropWhile_all_append ws _ hws]
  exact List.dropWhile_cons_of_neg (by decide)

/-- The shared `\s+(\w+)` suffix of `CLASS_START_RE` and `ENUM_RE`
captures exactly `name` when the remaining input is `name ++ rest` with
`name` a nonempty word and `rest` not starting with a word character. -/
theorem word1_capture (name rest : List Char) (hname : name ≠ [])
    (hword : ∀ c ∈ name, isWordCh c = true)
    (hrest : match rest.head? with
      | some d => isWordCh d = false
      | none => True) :
    (word1 ((name ++ rest).dropWhile isSpaceRx)).map (fun p => p.1) =
      some name := by
  cases name with
  | nil => exact absurd rfl hname
  | cons c m =>
    have hc : isSpaceRx c = false := isSpaceRx_of_isWordCh (hword c (by simp))
    rw [List.cons_append, List.dropWhile_cons_of_neg (by simp [hc])]
    have htw := (takeWhile_all_append (c :: m) rest hword hrest).1
    rw [List.cons_append] at htw
    unfold word1
    rw [htw]
    rfl

/-- `CLASS_START_RE` matches a line of shape
`ws ++ "enum class " ++ name ++ rest` (the modifier group eats `enum`)
and captures `name`. -/
theorem class_start_match_enum (ws name rest : List Char)
    (hws : ∀ c ∈ ws, isSpaceRx c = true) (hname : name ≠ [])
    (hword : ∀ c ∈ name, isWordCh c = true)
    (hrest : match rest.head? with
      | some d => isWordCh d = false
      | none => True) :
    class_start_match (ws ++ "enum class ".data ++ name ++ rest) =
      some name := by
  have hdw : (ws ++ "enum class ".data ++ name ++ rest).dropWhile isSpaceRx =
      "enum class ".data ++ (name ++ rest) := by
    rw [List.append_assoc, List.append_assoc]
    exact dropWhile_enum_class ws (name ++ rest) hws
  have hml : modsLoop kotlinClassMods
      ("enum class ".data ++ (name ++ rest)) =
      "class ".data ++ (name ++ rest) := by
    unfold modsLoop
    rw [length_enum_class]
    exact modsLoopF_enum_class _ _
  unfold class_start_match
  rw [hdw, hml]
  show (word1 ((name ++ rest).dropWhile isSpaceRx)).map (fun p => p.1) =
    some name
  exact word1_capture name rest hname hword hrest

/-- `ENUM_RE` matches the same line shape and captures the same name. -/
theorem enum_match_enum (ws name rest : List Char)
    (hws : ∀ c ∈ ws, isSpaceRx c = true) (hname : name ≠ [])
    (hword : ∀ c ∈ name, isWordCh c = true)
    (hrest : match rest.head? with
      | some d => isWordCh d = false
      | none => True) :
    enum_match (ws ++ "enum class ".data ++ name ++ rest) = some name := by
  have hdw : (ws ++ "enum class ".data ++ name ++ rest).dropWhile isSpaceRx =
      "enum class ".data ++ (name ++ rest) := by
    rw [List.append_assoc, List.append_assoc]
    exact dropWhile_enum_class ws (name ++ rest) hws
  have hml : modsLoop ["public".data, "private".data, "protected".data,
      "internal".data] ("enum class ".data ++ (name ++ rest)) =
      "enum class ".data ++ (name ++ rest) := by
    unfold modsLoop
    rw [length_enum_class]
    exact modsLoopF_enum4 _ _
  unfold enum_match
  rw [hdw, hml]
  show (word1 ((name ++ rest).dropWhile isSpaceRx)).map (fun p => p.1) =
    some name
  exact word1_capture name rest hname hword hrest

/-- A successful class match on a line not containing `"object "`
contributes a Class symbol to the line's symbols. -/
theorem kotlinLineSyms_mem_class (lines : List (List Char)) (i : Nat)
    (line n : List Char) (hcls : class_start_match line = some n)
    (hobj : containsSub "object ".data line = false) :
    (⟨String.mk n, SymbolKind.Class, i + 1, String.mk (trimChars line),
        extract_parents_from_declaration (collect_class_declaration lines i)⟩ :
      ParsedSymbol) ∈ kotlinLineSyms lines i line := by
  simp only [kotlinLineSyms, hcls, hobj]
  apply List.mem_append_left
  apply List.mem_append_left
  apply List.mem_append_left
  apply List.mem_append_left
  apply List.mem_append_left
  apply List.mem_append_left
  simp

/-- A successful enum match contributes an Enum symbol to the line's
symbols. -/
theorem kotlinLineSyms_mem_enum (lines : List (List Char)) (i : Nat)
    (line n : List Char) (henm : enum_match line = some n) :
    (⟨String.mk n, SymbolKind.Enum, i + 1, String.mk (trimChars line), []⟩ :
      ParsedSymbol) ∈ kotlinLineSyms lines i line := by
  simp only [kotlinLineSyms, henm]
  apply List.mem_append_left
  apply List.mem_append_left
  apply List.mem_append_left
  apply List.mem_append_left
  apply List.mem_append_right
  simp

/-- Any symbol produced for line `i` of the input appears in the
parser's output. -/
theorem mem_parse_kotlin_of_line (content : String) (i : Nat)
    (line : List Char) (s : ParsedSymbol)
    (hline : (rustLines content.data).get? i = some line)
    (hs : s ∈ kotlinLineSyms (rustLines content.data) i line) :
    s ∈ parse_kotlin_symbols content := by
  simp only [parse_kotlin_symbols]
  exact mem_flatMapL.mpr ⟨(i, line), mem_enumFrom.mpr ⟨i, hline, by omega⟩, hs⟩

set_option maxHeartbeats 2000000 in
/-- C10 counterexample: `enum class Direction` with a companion object on
the same line is reported as Object + Enum — no Class symbol at all, because
the class match's kind is Object whenever the line contains `"object "`.
The claim's "one of kind Class" is therefore not universal. -/
theorem C10_counterexample :
    (parse_kotlin_symbols c10Input).map (fun s => (s.name, s.kind)) =
      [("Direction", SymbolKind.Object), ("Direction", SymbolKind.Enum)] ∧
    (parse_kotlin_symbols c10Input).filter
      (fun s => s.kind == SymbolKind.Class) = [] := by decide

/-- C10 (corrected): on a line of shape `ws ++ "enum class " ++ name ++ rest`
(leading whitespace `ws`, nonempty word `name`, `rest` not starting with a
word character) that does not contain the substring `"object "`, the Kotlin
parser double-reports the declaration: it emits both a Class symbol (via
`CLASS_START_RE`, whose modifier list includes `enum`) and an Enum symbol
(via `ENUM_RE`) named `name` at line `i + 1`. Without the `"object "`
proviso the first symbol's kind is Object instead of Class. -/
theorem C10_enum_class_double_report (content : String) (i : Nat)
    (ws name rest : List Char)
    (hline : (rustLines content.data).get? i =
      some (ws ++ "enum class ".data ++ name ++ rest))
    (hws : ∀ c ∈ ws, isSpaceRx c = true) (hname : name ≠ [])
    (hword : ∀ c ∈ name, isWordCh c = true)
    (hrest : match rest.head? with
      | some d => isWordCh d = false
      | none => True)
    (hobj : containsSub "object ".data
      (ws ++ "enum class ".data ++ name ++ rest) = false) :
    ((parse_kotlin_symbols content).any (fun s =>
        s.name == String.mk name && s.kind == SymbolKind.Class &&
          s.line == i + 1) = true) ∧
    ((parse_kotlin_symbols content).any (fun s =>
        s.name == String.mk name && s.kind == SymbolKind.Enum &&
          s.line == i + 1) = true) := by
  constructor
  · rw [List.any_eq_true]
    refine ⟨_, mem_parse_kotlin_of_line content i _ _ hline
      (kotlinLineSyms_mem_class _ i _ name
        (class_start_match_enum ws name rest hws hname hword hrest) hobj), ?_⟩
    simp
    rfl
  · rw [List.any_eq_true]
    refine ⟨_, mem_parse_kotlin_of_line content i _ _ hline
      (kotlinLineSyms_mem_enum _ i _ name
        (enum_match_enum ws name rest hws hname hword hrest)), ?_⟩
    simp
    rfl

/-- Witness for `C10_enum_class_double_report` on the single line
`enum class Direction \x7b`. -/
theorem C10_enum_class_double_report_witness :
    ((rustLines "enum class Direction \x7b".data).get? 0 =
      some ([] ++ "enum class ".data ++ "Direction".data ++ " \x7b".data)) ∧
    (((parse_kotlin_symbols "enum class Direction \x7b").any (fun s =>
        s.name == String.mk "Direction".data && s.kind == SymbolKind.Class &&
          s.line == 0 + 1) = true) ∧
     ((parse_kotlin_symbols "enum class Direction \x7b").any (fun s =>
        s.name == String.mk "Direction".data && s.kind == SymbolKind.Enum &&
          s.line == 0 + 1) = true)) :=
  ⟨by decide,
   C10_enum_class_double_report "enum class Direction \x7b" 0 []
     "Direction".data " \x7b".data (by decide) (by decide) (by decide)
     (by decide) rfl (by decide)⟩
